import Mathlib

/-!
Verification of the transfer-plan reconciliation engine of
`rdispatcher.py` (RemoteDispatcher / SFTPClient).

Python strings are modelled as lists of characters (`PyStr`); the path
helpers from `os.path` (posixpath) that the source imports — `join`,
`normpath`, `dirname`, `basename`, `sep`-stripping — and `str.replace`
are embedded faithfully below.  The remote side is an oracle of
`stat`/`lstat` answers plus `mkdir`/`put` success flags; every remote
round trip is recorded as an event so that probe counts and
mkdir/upload ordering can be stated.
-/

/-- Python strings are modelled as lists of characters. -/
abbrev PyStr := List Char

/-- Turns a Lean string literal into the character-list model. -/
def ps (s : String) : PyStr := s.data

/-- Python `s.lstrip("/")`: drop leading slashes. -/
def lstripSlash (s : PyStr) : PyStr := s.dropWhile (fun c => c = '/')

/-- Python `s.rstrip("/")`: drop trailing slashes. -/
def rstripSlash (s : PyStr) : PyStr := (s.reverse.dropWhile (fun c => c = '/')).reverse

/-- Python `s.strip(pathsep)` with `pathsep = os.path.sep = "/"` (used at
`rdispatcher.py:238`). -/
def pyStrip (s : PyStr) : PyStr := rstripSlash (lstripSlash s)

/-- Scanner for Python `s.replace(old, new)` with non-empty `old`:
left-to-right, non-overlapping; after a match the remaining
`old.length - 1` matched characters are skipped via the counter. -/
def pyReplaceGo (old new : PyStr) : PyStr → Nat → PyStr
  | [], _ => []
  | _ :: cs, Nat.succ skp => pyReplaceGo old new cs skp
  | c :: cs, 0 =>
    if old.isPrefixOf (c :: cs) then new ++ pyReplaceGo old new cs (old.length - 1)
    else c :: pyReplaceGo old new cs 0

/-- Python `s.replace(old, new)`, including CPython's behaviour for an
empty `old` (interleave `new` around every character). -/
def pyReplace (old new s : PyStr) : PyStr :=
  if old = [] then new ++ s.flatMap (fun c => c :: new)
  else pyReplaceGo old new s 0

/-- posixpath.join for two components (the form used in the source):
an absolute second component wins; otherwise concatenate, inserting a
slash unless the first part is empty or already ends in one. -/
def joinpath (a b : PyStr) : PyStr :=
  if b.head? = some '/' then b
  else if a = [] ∨ a.getLast? = some '/' then a ++ b
  else a ++ '/' :: b

/-- Python `s.split("/")` (as used inside `posixpath.normpath`). -/
def splitSlash : PyStr → List PyStr
  | [] => [[]]
  | c :: cs =>
    if c = '/' then [] :: splitSlash cs
    else (splitSlash cs).modifyHead (fun x => c :: x)

/-- Python `"/".join(comps)` (as used inside `posixpath.normpath`). -/
def joinSlash : List PyStr → PyStr
  | [] => []
  | [c] => c
  | c :: c2 :: cs => c ++ '/' :: joinSlash (c2 :: cs)

/-- The `initial_slashes` computation of `posixpath.normpath`: 1 for one
leading slash, 2 for exactly two (POSIX allows `//` to be special),
1 again for three or more, 0 otherwise. -/
def initialSlashes (p : PyStr) : Nat :=
  if List.isPrefixOf ['/'] p then
    if List.isPrefixOf ['/', '/'] p ∧ ¬ List.isPrefixOf ['/', '/', '/'] p then 2 else 1
  else 0

/-- One step of the component loop of `posixpath.normpath`. -/
def normStep (hasSlashes : Bool) (acc : List PyStr) (comp : PyStr) : List PyStr :=
  if comp = [] ∨ comp = ['.'] then acc
  else if comp ≠ ['.', '.']
      ∨ (hasSlashes = false ∧ acc = [])
      ∨ (acc ≠ [] ∧ acc.getLast? = some ['.', '.']) then acc ++ [comp]
  else if acc ≠ [] then acc.dropLast
  else acc

/-- The component loop of `posixpath.normpath`. -/
def normComps (hasSlashes : Bool) (comps : List PyStr) : List PyStr :=
  comps.foldl (normStep hasSlashes) []

/-- posixpath.normpath. -/
def normpath (p : PyStr) : PyStr :=
  if p = [] then ['.']
  else
    let k := initialSlashes p
    let comps := normComps (k != 0) (splitSlash p)
    let out := List.replicate k '/' ++ joinSlash comps
    if out = [] then ['.'] else out

/-- posixpath.dirname: everything up to (excluding) the last slash,
with the trailing slashes stripped unless the head is all slashes. -/
def dirname (p : PyStr) : PyStr :=
  let head := (p.reverse.dropWhile (fun c => c ≠ '/')).reverse
  if head ≠ [] ∧ ¬ head.all (fun c => c = '/') then rstripSlash head else head

/-- posixpath.basename: everything after the last slash. -/
def basename (p : PyStr) : PyStr := (p.reverse.takeWhile (fun c => c ≠ '/')).reverse

/-- The remote counterpart the code computes for a walked local
directory (`rdispatcher.py:237-238`):
`normpath(join(root_dest, base_dir.replace(source, '').strip('/')))`.
Note `str.replace` removes every occurrence of `source`, not only a
leading one. -/
def destDirOf (source root_dest baseDir : PyStr) : PyStr :=
  normpath (joinpath root_dest (pyStrip (pyReplace source [] baseDir)))

/-- Modelled from the spec: the remote counterpart obtained by
"stripping the local source prefix and appending the remainder to the
remote root" — only a leading occurrence of `source` is removed, the
rest of the pipeline being identical to the code. -/
def specRemoteCounterpart (source root_dest baseDir : PyStr) : PyStr :=
  normpath (joinpath root_dest
    (pyStrip (if source.isPrefixOf baseDir then baseDir.drop source.length else baseDir)))

/-- A path that is safe to put a file name under: nonempty, and if it
ends in a slash it is all slashes (this is what `normpath` outputs, and
what makes `dirname (joinpath d f) = d`). -/
def goodDir (d : PyStr) : Prop :=
  d ≠ [] ∧ (d.getLast? = some '/' → d.all (fun c => c = '/'))

/-! ## Remote side: stat oracle, SFTPClient.exists / isdir, events -/

/-- Outcome of a remote `stat`/`lstat` call.  Both a missing path and a
broken connection surface as `IOError` in paramiko (`OSError` aliases
`IOError`); the two are kept apart here so that the code's treatment of
each can be stated. -/
inductive StatRes where
  | ok (mode : Nat)
  | errNoSuchFile
  | errConnectionLost
deriving DecidableEq, Repr

/-- The remote host, as a fixed oracle: `stat`/`lstat` answers per path
plus success flags for `mkdir` and `put`. -/
structure Remote where
  stat : PyStr → StatRes
  lstat : PyStr → StatRes
  mkdirOk : PyStr → Bool
  putOk : PyStr → PyStr → Bool

/-- One remote round trip, recorded in order of issue. -/
inductive Ev where
  | connect
  | statQ (p : PyStr)
  | lstatQ (p : PyStr)
  | mkdir (p : PyStr)
  | put (l r : PyStr)
deriving DecidableEq, Repr

/-- Number of `stat` probes issued for a given path (the existence
round trips the spec's call-counting probe double would record). -/
def statCount (evs : List Ev) (p : PyStr) : Nat :=
  (evs.filter (fun e => match e with | .statQ q => q == p | _ => false)).length

/-- True for events that mutate the remote side (mkdir or upload). -/
def isMutation (e : Ev) : Bool :=
  match e with
  | .mkdir _ => true
  | .put _ _ => true
  | _ => false

/-- SFTPClient.exists (`rdispatcher.py:66-83`): `stat` succeeding means
`True`; `except IOError: return False`.  The `else:` branch that would
raise `RemoteDispatcherException` is unreachable (the `try` body always
returns), so the function has no error outcome. -/
def sftpExists (r : Remote) (name : PyStr) : Bool :=
  match r.stat name with
  | .ok _ => true
  | .errNoSuchFile => false
  | .errConnectionLost => false

/-- The `st_mode` obtained in SFTPClient.isdir: `lstat` result, with
`except OSError: mode = 0`. -/
def lstatMode (r : Remote) (name : PyStr) : Nat :=
  match r.lstat name with
  | .ok m => m
  | .errNoSuchFile => 0
  | .errConnectionLost => 0

/-- stat.S_ISDIR: the file-type bits equal S_IFDIR. -/
def S_ISDIR (m : Nat) : Bool := m &&& 0o170000 == 0o040000

/-- SFTPClient.isdir (`rdispatcher.py:85-108`) as a pure Boolean. -/
def sftpIsdir (r : Remote) (name : PyStr) : Bool :=
  if sftpExists r name then S_ISDIR (lstatMode r name) else false

/-- SFTPClient.exists together with the round trip it issues. -/
def sexists (r : Remote) (name : PyStr) : Bool × List Ev :=
  (sftpExists r name, [.statQ name])

/-- SFTPClient.isdir together with the round trips it issues: the
`exists` stat, then (only when that succeeded) the `lstat`. -/
def sisdir (r : Remote) (name : PyStr) : Bool × List Ev :=
  if sftpExists r name then (S_ISDIR (lstatMode r name), [.statQ name, .lstatQ name])
  else (false, [.statQ name])

/-! ## Local side: the filesystem oracle and walked trees -/

/-- The local filesystem as the source code sees it: `os.path.isfile`,
`os.path.isdir`, `glob.glob` and `os.walk`. -/
structure LocalFS where
  isfile : PyStr → Bool
  isdir : PyStr → Bool
  glob : PyStr → List PyStr
  walk : PyStr → List (PyStr × List PyStr × List PyStr)

/-- Sanity of the local-filesystem oracle, true of any real POSIX
filesystem: names listed by a walk entry are nonempty and contain no
separator, glob matches have a nonempty basename, and no path is both
a file and a directory. -/
def wfLocal (l : LocalFS) : Prop :=
  (∀ s e, e ∈ l.walk s → ∀ f ∈ e.2.2, f ≠ [] ∧ '/' ∉ f) ∧
  (∀ pat f, f ∈ l.glob pat → basename f ≠ []) ∧
  (∀ p, l.isfile p = true → l.isdir p = false)

/-! A local directory tree: the files directly inside, and the named
subdirectories (given as a forest, mutually with the tree type). -/
mutual
inductive FTree where
  | node (files : List PyStr) (subs : FForest)
deriving Repr

inductive FForest where
  | fnil
  | fcons (name : PyStr) (t : FTree) (rest : FForest)
deriving Repr
end

/-- Names of the subdirectories listed by a forest. -/
def subNames : FForest → List PyStr
  | .fnil => []
  | .fcons n _ rest => n :: subNames rest

/-! os.walk (top-down): walkFrom yields the root triple, then recurses
into each subdirectory in listing order, joining names onto the base
path. -/
mutual
def walkFrom (base : PyStr) : FTree → List (PyStr × List PyStr × List PyStr)
  | .node fs subs => (base, subNames subs, fs) :: walkForest base subs

def walkForest (base : PyStr) : FForest → List (PyStr × List PyStr × List PyStr)
  | .fnil => []
  | .fcons n t rest => walkFrom (joinpath base n) t ++ walkForest base rest
end

/-! countFiles: total number of files anywhere in a tree / forest. -/
mutual
def countFiles : FTree → Nat
  | .node fs subs => fs.length + countForest subs

def countForest : FForest → Nat
  | .fnil => 0
  | .fcons _ t rest => countFiles t + countForest rest
end

/-! ## The planner -/

/-- Errors raised by `scp` and its helpers.  In the Python source every
one of these is raised as the single class `RemoteDispatcherException`,
carrying only a message string; the constructors keep the data each
raise site interpolates into its message. -/
inductive ScpError where
  | recursiveFlagRequired
  | sourceNotFound (pattern : PyStr)
  | typeMismatch (localPath remotePath : PyStr)
  | mkdirFailed (dir : PyStr)
  | uploadFailed (localPath remotePath : PyStr)
deriving DecidableEq, Repr

/-- The single quote character used in the Python format strings. -/
def qc : Char := Char.ofNat 39

/-- The message each raise site formats (`rdispatcher.py` lines 378,
332, 250-252, 399, 411). -/
def ScpError.message : ScpError → PyStr
  | .recursiveFlagRequired => ps "Please enable recursive argument to copy recursively"
  | .sourceNotFound pat => ps "File or Directory not found: " ++ pat
  | .typeMismatch lp rp =>
      ps "Copy aborted. Mismatch in file type Local: " ++ qc :: lp ++ qc ::
        ps " Remote: " ++ qc :: rp ++ [qc]
  | .mkdirFailed d => ps "Couldn" ++ qc :: ps "t create dest directory: " ++ qc :: d ++ [qc]
  | .uploadFailed lp rp =>
      ps "Couldn" ++ qc :: ps "t copy from local: " ++ qc :: lp ++ qc ::
        ps " to remote: " ++ qc :: rp ++ [qc]

/-- The Python exception class each raise site uses. -/
def ScpError.pyClass : ScpError → String
  | .recursiveFlagRequired => "RemoteDispatcherException"
  | .sourceNotFound _ => "RemoteDispatcherException"
  | .typeMismatch _ _ => "RemoteDispatcherException"
  | .mkdirFailed _ => "RemoteDispatcherException"
  | .uploadFailed _ _ => "RemoteDispatcherException"

/-- Planner-local mutable state of `__construct_remote_paths`:
`parent_path` / `parent_dest_exists` plus the two result lists the
Python code appends to. -/
structure PlanSt where
  parentPath : PyStr
  parentDestExists : Bool
  rdirs : List PyStr
  files : List (PyStr × PyStr)
deriving DecidableEq, Repr

/-- Result of the walk loop of `__construct_remote_paths`: either the
final state, or the `TypeMismatch` raise; either way the remote round
trips issued so far. -/
inductive WalkRes where
  | ok (st : PlanSt) (evs : List Ev)
  | typeMismatch (localPath remotePath : PyStr) (evs : List Ev)
deriving DecidableEq, Repr

/-- One iteration of the `for base_dir, _, files in local_walk(source)`
loop of `__construct_remote_paths` (`rdispatcher.py:235-262`): either
the updated planner state plus the probes issued, or the data of the
`TypeMismatch` raise. -/
def crpStep (r : Remote) (source root_dest : PyStr) (rootDestExists : Bool) (st : PlanSt)
    (entry : PyStr × List PyStr × List PyStr) :
    (PlanSt × List Ev) ⊕ (PyStr × PyStr × List Ev) :=
  let baseDir := entry.1
  let fnames := entry.2.2
  let destDir := destDirOf source root_dest baseDir
  let fmaps := fnames.map (fun f => (joinpath baseDir f, joinpath destDir f))
  if rootDestExists then
    let npp := dirname baseDir
    if npp = st.parentPath ∧ st.parentDestExists = false then
      .inl ({ st with rdirs := st.rdirs ++ [destDir], files := st.files ++ fmaps }, [])
    else if sftpExists r destDir = false then
      .inl ({ parentPath := npp, parentDestExists := false,
              rdirs := st.rdirs ++ [destDir], files := st.files ++ fmaps }, [.statQ destDir])
    else if (sisdir r destDir).1 = false then
      .inr (baseDir, destDir, [.statQ destDir] ++ (sisdir r destDir).2)
    else
      .inl ({ parentPath := npp, parentDestExists := true,
              rdirs := st.rdirs, files := st.files ++ fmaps },
            [.statQ destDir] ++ (sisdir r destDir).2)
  else
    .inl ({ st with rdirs := st.rdirs ++ [normpath destDir], files := st.files ++ fmaps }, [])

/-- The walk loop of `__construct_remote_paths`: fold `crpStep` over
the `os.walk` listing, accumulating the probes in issue order and
aborting on the first type mismatch. -/
def crpWalk (r : Remote) (source root_dest : PyStr) (rootDestExists : Bool) :
    PlanSt → List (PyStr × List PyStr × List PyStr) → WalkRes
  | st, [] => .ok st []
  | st, entry :: rest =>
    match crpStep r source root_dest rootDestExists st entry with
    | .inr (a, b, evs) => .typeMismatch a b evs
    | .inl (st1, evs) =>
      match crpWalk r source root_dest rootDestExists st1 rest with
      | .ok st2 evs2 => .ok st2 (evs ++ evs2)
      | .typeMismatch a b evs2 => .typeMismatch a b (evs ++ evs2)

/-- Planner output: the two lists (on success) or the raised error,
plus the remote round trips issued. -/
inductive PlanOut where
  | ok (rdirs : List PyStr) (files : List (PyStr × PyStr)) (evs : List Ev)
  | err (e : ScpError) (evs : List Ev)
deriving DecidableEq, Repr

/-- __construct_remote_paths (`rdispatcher.py:204-262`): a file source
short-circuits to one mapping; otherwise probe the remote root once,
then walk. -/
def constructRemotePaths (r : Remote) (l : LocalFS) (source root_dest : PyStr)
    (rdirs0 : List PyStr) (files0 : List (PyStr × PyStr)) : PlanOut :=
  if l.isfile source then
    .ok rdirs0 (files0 ++ [(source, joinpath root_dest (basename source))]) []
  else
    let pr := sisdir r root_dest
    match crpWalk r source root_dest pr.1
        { parentPath := root_dest, parentDestExists := pr.1,
          rdirs := rdirs0, files := files0 } (l.walk source) with
    | .ok st evs => .ok st.rdirs st.files (pr.2 ++ evs)
    | .typeMismatch a b evs => .err (.typeMismatch a b) (pr.2 ++ evs)

/-- __get_paths_source_file (`rdispatcher.py:264-285`). -/
def getPathsSourceFile (r : Remote) (source dest : PyStr) : PlanOut :=
  let pr := sisdir r dest
  let d := if pr.1 then joinpath dest (basename source) else dest
  .ok [] [(source, d)] pr.2

/-- __get_paths_source_dir (`rdispatcher.py:287-308`). -/
def getPathsSourceDir (r : Remote) (l : LocalFS) (source dest : PyStr) : PlanOut :=
  let pr := sisdir r dest
  let d := if pr.1 then joinpath dest (basename source) else dest
  match constructRemotePaths r l source d [] [] with
  | .ok rdirs files evs => .ok rdirs files (pr.2 ++ evs)
  | .err e evs => .err e (pr.2 ++ evs)

/-- The `for lfile in source_list` loop of __get_paths_source_pattern,
threading the shared result lists through each match. -/
def patLoop (r : Remote) (l : LocalFS) (root_dest : PyStr) :
    List PyStr → List PyStr → List (PyStr × PyStr) → PlanOut
  | [], rdirs, files => .ok rdirs files []
  | lfile :: rest, rdirs, files =>
    let d := if l.isdir lfile then joinpath root_dest (basename lfile) else root_dest
    match constructRemotePaths r l lfile d rdirs files with
    | .ok rdirs' files' evs =>
      match patLoop r l root_dest rest rdirs' files' with
      | .ok rdirs'' files'' evs' => .ok rdirs'' files'' (evs ++ evs')
      | .err e evs' => .err e (evs ++ evs')
    | .err e evs => .err e evs

/-- __get_paths_source_pattern (`rdispatcher.py:310-349`): glob first
(raising before any remote contact if empty), then schedule the literal
destination unless it is already a remote directory, then reconcile
each match. -/
def getPathsSourcePattern (r : Remote) (l : LocalFS) (source dest : PyStr) : PlanOut :=
  let srcList := l.glob source
  if srcList = [] then .err (.sourceNotFound source) []
  else
    let pr := sisdir r dest
    let rdirs0 := if pr.1 = false then [dest] else []
    match patLoop r l dest srcList rdirs0 [] with
    | .ok rdirs files evs => .ok rdirs files (pr.2 ++ evs)
    | .err e evs => .err e (pr.2 ++ evs)

/-- The source-kind dispatch of `scp` (`rdispatcher.py:385-391`),
applied to the already-normalised source and destination. -/
def planOf (r : Remote) (l : LocalFS) (s0 d0 : PyStr) : PlanOut :=
  let source := normpath s0
  let dest := normpath d0
  if l.isfile source then getPathsSourceFile r source dest
  else if l.isdir source then getPathsSourceDir r l source dest
  else getPathsSourcePattern r l source dest

/-! ## The executor: scp itself -/

/-- The directory-skeleton loop of `scp` (`rdispatcher.py:394-401`):
issue each mkdir in list order; an IOError aborts with the directory
that failed. -/
def mkdirPhase (r : Remote) : List PyStr → Option PyStr × List Ev
  | [] => (none, [])
  | d :: rest =>
    if r.mkdirOk d then
      let pr := mkdirPhase r rest
      (pr.1, .mkdir d :: pr.2)
    else (some d, [.mkdir d])

/-- The upload loop of `scp` (`rdispatcher.py:404-414`). -/
def putPhase (r : Remote) : List (PyStr × PyStr) → Option (PyStr × PyStr) × List Ev
  | [] => (none, [])
  | (lf, rf) :: rest =>
    if r.putOk lf rf then
      let pr := putPhase r rest
      (pr.1, .put lf rf :: pr.2)
    else (some (lf, rf), [.put lf rf])

/-- Outcome of one `scp` call: success or the raised error, plus the
full ordered trace of remote round trips. -/
inductive ScpOut where
  | ok (evs : List Ev)
  | err (e : ScpError) (evs : List Ev)
deriving DecidableEq, Repr

/-- The trace of an `scp` call, whatever its outcome. -/
def evsOfScp : ScpOut → List Ev
  | .ok evs => evs
  | .err _ evs => evs

/-- Everything `scp` does once the recursive-flag gate has passed:
connect, plan, create the directory skeleton in order, then upload in
order (`rdispatcher.py:382-414`). -/
def scpAfterGate (r : Remote) (l : LocalFS) (source0 dest0 : PyStr) : ScpOut :=
  match planOf r l source0 dest0 with
  | .err e evs => .err e (Ev.connect :: evs)
  | .ok rdirs files evs =>
    match mkdirPhase r rdirs with
    | (some d, devs) => .err (.mkdirFailed d) (Ev.connect :: evs ++ devs)
    | (none, devs) =>
      match putPhase r files with
      | (some lr, uevs) =>
          .err (.uploadFailed lr.1 lr.2) (Ev.connect :: evs ++ devs ++ uevs)
      | (none, uevs) => .ok (Ev.connect :: evs ++ devs ++ uevs)

/-- RemoteDispatcher.scp (`rdispatcher.py:351-414`): normalise both
paths, gate on the recursive flag before any remote contact, then
connect and run the plan-and-execute pipeline. -/
def scp (r : Remote) (l : LocalFS) (source0 dest0 : PyStr) (recursive : Bool) : ScpOut :=
  let source := normpath source0
  if (l.isdir source || decide ((l.glob source).length > 1)) && !recursive then
    .err .recursiveFlagRequired []
  else scpAfterGate r l source0 dest0

/-! ## Concrete fixtures for witnesses and counterexamples -/

/-- A local filesystem containing exactly one directory tree rooted at
`src` (and nothing else). -/
def lfsForDir (src : PyStr) (t : FTree) : LocalFS where
  isfile := fun _ => false
  isdir := fun p => p == src
  glob := fun p => if p == src then [src] else []
  walk := fun p => if p == src then walkFrom src t else []

/-- A local filesystem containing exactly one plain file. -/
def lfsForFile (f : PyStr) : LocalFS where
  isfile := fun p => p == f
  isdir := fun _ => false
  glob := fun p => if p == f then [f] else []
  walk := fun _ => []

/-- An empty local filesystem: nothing exists, every glob is empty. -/
def lfsEmpty : LocalFS where
  isfile := fun _ => false
  isdir := fun _ => false
  glob := fun _ => []
  walk := fun _ => []

/-- st_mode of a directory (0o40755). -/
def dirMode : Nat := 0o040755

/-- st_mode of a regular file (0o100644). -/
def fileMode : Nat := 0o100644

/-- A remote host on which the given paths exist as directories and
files respectively, and every mkdir/put succeeds. -/
def remoteWith (dirs files : List PyStr) : Remote where
  stat := fun p => if p ∈ dirs then .ok dirMode else if p ∈ files then .ok fileMode
    else .errNoSuchFile
  lstat := fun p => if p ∈ dirs then .ok dirMode else if p ∈ files then .ok fileMode
    else .errNoSuchFile
  mkdirOk := fun _ => true
  putOk := fun _ _ => true

/-- A remote host with nothing on it. -/
def remoteAbsent : Remote := remoteWith [] []

/-- A remote host whose connection drops on every probe: each
`stat`/`lstat` raises an IOError that is not "no such file". -/
def remoteConnLost : Remote where
  stat := fun _ => .errConnectionLost
  lstat := fun _ => .errConnectionLost
  mkdirOk := fun _ => true
  putOk := fun _ _ => true

/-- The end-to-end tree of the spec: `a/x.txt` and `a/b/y.txt`. -/
def treeC4 : FTree := .node [ps "x.txt"] (.fcons (ps "b") (.node [ps "y.txt"] .fnil) .fnil)

/-- Source tree with a single subdirectory `xa`, whose walked path
`a/xa` contains the source string `a` twice. -/
def treeC1 : FTree := .node [] (.fcons (ps "xa") (.node [] .fnil) .fnil)

/-- Source tree `src/p/{s1,s2}`: one non-root parent with two leaf
sibling subdirectories. -/
def treeC2 : FTree :=
  .node []
    (.fcons (ps "p")
      (.node [] (.fcons (ps "s1") (.node [] .fnil) (.fcons (ps "s2") (.node [] .fnil) .fnil)))
      .fnil)

/-- Remote round trips recorded by the walk loop, whatever its
outcome. -/
def evsOfWalk : WalkRes → List Ev
  | .ok _ evs => evs
  | .typeMismatch _ _ evs => evs

/-- Directory-creation list of a planner output (empty on error: the
partial list is discarded with the raise). -/
def rdirsOfPlan : PlanOut → List PyStr
  | .ok rdirs _ _ => rdirs
  | .err _ _ => []

/-- File-mapping list of a planner output. -/
def filesOfPlan : PlanOut → List (PyStr × PyStr)
  | .ok _ files _ => files
  | .err _ _ => []

/-- Remote round trips of a planner output. -/
def evsOfPlan : PlanOut → List Ev
  | .ok _ _ evs => evs
  | .err _ evs => evs

/-- True for events that touch the remote filesystem (probe, mkdir or
upload) as opposed to merely establishing the session. -/
def isRemoteFsCall (e : Ev) : Bool :=
  match e with
  | .connect => false
  | _ => true

/-- Remote round trips recorded by one walk step, whatever its
outcome. -/
def evsOfStep : (PlanSt × List Ev) ⊕ (PyStr × PyStr × List Ev) → List Ev
  | .inl z => z.2
  | .inr z => z.2.2

/-- The C2 planning pass: remote root `/d` exists as a directory,
`src/p` and its two leaf children are absent remotely. -/
def planC2 : PlanOut :=
  constructRemotePaths (remoteWith [ps "/d"] []) (lfsForDir (ps "src") treeC2)
    (ps "src") (ps "/d") [] []

/-! ## Theorems -/

/-- C1: the claim states that the remote counterpart of a walked
subdirectory is the remote root plus the path relative to the source
root, with only the leading source prefix removed.  The code instead
uses `str.replace`, which removes every occurrence of the source string:
for source `a` with subdirectory `xa` (walked path `a/xa`) and remote
root `/r`, the code computes `/r/x` where prefix-stripping (the spec's
words, `specRemoteCounterpart`) gives `/r/xa`; the full planner
schedules `/r/x` for creation. -/
theorem c1_replace_removes_every_occurrence :
    destDirOf (ps "a") (ps "/r") (ps "a/xa") = ps "/r/x"
    ∧ specRemoteCounterpart (ps "a") (ps "/r") (ps "a/xa") = ps "/r/xa"
    ∧ destDirOf (ps "a") (ps "/r") (ps "a/xa")
        ≠ specRemoteCounterpart (ps "a") (ps "/r") (ps "a/xa")
    ∧ getPathsSourceDir remoteAbsent (lfsForDir (ps "a") treeC1) (ps "a") (ps "/r")
        = .ok [ps "/r", ps "/r/x"] [] [.statQ (ps "/r"), .statQ (ps "/r")] := by
  decide

/-- C2 counterexample: with remote root `/d` known to exist and the
non-root parent `src/p` probed and found absent, the two leaf siblings
`src/p/s1` and `src/p/s2` do NOT get zero probes: the first sibling is
probed (the parent-state cache holds the parent of the previously
visited directory, which at that point is `src`, not `src/p`). -/
theorem c2_siblings_not_probe_free :
    ¬ (statCount (evsOfPlan planC2) (ps "/d/p/s1")
        + statCount (evsOfPlan planC2) (ps "/d/p/s2") = 0) := by
  decide

/-- C2 as amended: in that planning pass the parent is probed exactly
once, the first sibling exactly once, the second sibling not at all,
and all three directories are appended to the creation list. -/
theorem c2_parent_once_first_sibling_once :
    rdirsOfPlan planC2 = [ps "/d/p", ps "/d/p/s1", ps "/d/p/s2"]
    ∧ statCount (evsOfPlan planC2) (ps "/d/p") = 1
    ∧ statCount (evsOfPlan planC2) (ps "/d/p/s1") = 1
    ∧ statCount (evsOfPlan planC2) (ps "/d/p/s2") = 0 := by
  decide

/-- C7: an I/O failure of the probe itself (connection lost during
`stat`) is reported by SFTPClient.exists exactly like an absent path —
`False` — because `except IOError: return False` catches it and the
`raise` in the dead `else:` block is unreachable.  No ProbeError
distinct from absence can be raised. -/
theorem c7_probe_failure_reported_as_absent :
    ∀ (r : Remote) (p : PyStr), r.stat p = .errConnectionLost →
      sftpExists r p = false ∧ sftpExists r p = sftpExists remoteAbsent p := by
  intro r p h
  have hA : sftpExists remoteAbsent p = false := by
    simp [sftpExists, remoteAbsent, remoteWith]
  have hL : sftpExists r p = false := by simp [sftpExists, h]
  exact ⟨hL, by rw [hL, hA]⟩

/-- Witness for C7 at a concrete input: a host whose connection drops
on every probe. -/
theorem c7_probe_failure_reported_as_absent_w :
    sftpExists remoteConnLost (ps "/d/p") = false
    ∧ sftpExists remoteConnLost (ps "/d/p") = sftpExists remoteAbsent (ps "/d/p") :=
  c7_probe_failure_reported_as_absent remoteConnLost (ps "/d/p") rfl

/-- C10: every raise site reachable from `scp` uses the single Python
exception class `RemoteDispatcherException`; the five error kinds are
told apart only by their message text. -/
theorem c10_single_exception_class :
    (∀ e : ScpError, e.pyClass = "RemoteDispatcherException")
    ∧ (∀ (r : Remote) (l : LocalFS) (s0 d0 : PyStr) (rec : Bool) (e : ScpError)
        (evs : List Ev), scp r l s0 d0 rec = .err e evs →
          e.pyClass = "RemoteDispatcherException") := by
  constructor
  · intro e; cases e <;> rfl
  · intro r l s0 d0 rec e evs _; cases e <;> rfl

/-- Witness for C10 at a concrete failing call (empty glob). -/
theorem c10_single_exception_class_w :
    (ScpError.sourceNotFound (ps "*.txt")).pyClass = "RemoteDispatcherException" :=
  c10_single_exception_class.2 remoteAbsent lfsEmpty (ps "*.txt") (ps "/d") true
    (.sourceNotFound (ps "*.txt")) [Ev.connect] (by decide)

/-! ### Helper lemmas about probes and walk steps -/

theorem sisdir_fst_eq (r : Remote) (p : PyStr) : (sisdir r p).1 = sftpIsdir r p := by
  by_cases h : sftpExists r p = true <;> simp [sisdir, sftpIsdir, h]

theorem sisdir_no_mutation (r : Remote) (p : PyStr) :
    ∀ ev ∈ (sisdir r p).2, isMutation ev = false := by
  by_cases h : sftpExists r p = true <;>
    simp [sisdir, h, isMutation]

theorem crpStep_inr_shape (r : Remote) (source root_dest : PyStr) (rex : Bool) (st : PlanSt)
    (entry : PyStr × List PyStr × List PyStr) (a b : PyStr) (evs : List Ev)
    (h : crpStep r source root_dest rex st entry = .inr (a, b, evs)) :
    sftpExists r b = true ∧ sftpIsdir r b = false := by
  simp only [crpStep] at h
  split at h
  · split at h
    · simp at h
    · split at h
      · simp at h
      · split at h
        next hex hnd =>
          simp only [Sum.inr.injEq, Prod.mk.injEq] at h
          obtain ⟨-, hb, -⟩ := h
          subst hb
          refine ⟨by revert hex; simp, ?_⟩
          rw [← sisdir_fst_eq]
          exact hnd
        next => simp at h
  · simp at h

theorem crpStep_inl_probes (r : Remote) (source root_dest : PyStr) (rex : Bool) (st : PlanSt)
    (entry : PyStr × List PyStr × List PyStr) (st1 : PlanSt) (evs : List Ev)
    (h : crpStep r source root_dest rex st entry = .inl (st1, evs)) :
    ∀ p, Ev.statQ p ∈ evs → sftpExists r p = true → sftpIsdir r p = true := by
  simp only [crpStep] at h
  split at h
  · split at h
    · simp only [Sum.inl.injEq, Prod.mk.injEq] at h
      obtain ⟨-, hevs⟩ := h
      subst hevs
      intro p hp
      simp at hp
    · split at h
      next hnex =>
        simp only [Sum.inl.injEq, Prod.mk.injEq] at h
        obtain ⟨-, hevs⟩ := h
        subst hevs
        intro p hp hex
        simp only [List.mem_singleton, Ev.statQ.injEq] at hp
        subst hp
        rw [hnex] at hex
        cases hex
      · split at h
        · simp at h
        next hisd =>
          simp only [Sum.inl.injEq, Prod.mk.injEq] at h
          obtain ⟨-, hevs⟩ := h
          subst hevs
          intro p hp _
          have hb : (sisdir r source).1 = true ∨ True := Or.inr trivial
          have hd : sftpIsdir r (destDirOf source root_dest entry.1) = true := by
            rw [← sisdir_fst_eq]
            revert hisd
            cases (sisdir r (destDirOf source root_dest entry.1)).1 <;> simp
          have hmem :
              p = destDirOf source root_dest entry.1 ∨ Ev.statQ p ∈ (sisdir r (destDirOf source root_dest entry.1)).2 := by
            rcases List.mem_append.mp hp with h1 | h2
            · left
              simpa using h1
            · right; exact h2
          rcases hmem with rfl | h2
          · exact hd
          · by_cases hex2 : sftpExists r (destDirOf source root_dest entry.1) = true
            · simp only [sisdir, hex2, if_true, List.mem_cons, List.mem_singleton,
                List.not_mem_nil, or_false] at h2
              rcases h2 with h2 | h2
              · cases h2; exact hd
              · exact absurd h2 (by simp)
            · simp only [sisdir, hex2] at h2
              simp at h2
              rw [h2]
              exact hd
  · simp only [Sum.inl.injEq, Prod.mk.injEq] at h
    obtain ⟨-, hevs⟩ := h
    subst hevs
    intro p hp
    simp at hp

theorem crpStep_no_mutation (r : Remote) (source root_dest : PyStr) (rex : Bool) (st : PlanSt)
    (entry : PyStr × List PyStr × List PyStr) :
    ∀ ev ∈ evsOfStep (crpStep r source root_dest rex st entry), isMutation ev = false := by
  simp only [crpStep]
  split
  · split
    · simp [evsOfStep]
    · split
      · simp [evsOfStep, isMutation]
      · split
        · intro ev hev
          simp only [evsOfStep, List.mem_append, List.mem_singleton] at hev
          rcases hev with rfl | hev
          · rfl
          · exact sisdir_no_mutation r _ ev hev
        · intro ev hev
          simp only [evsOfStep, List.mem_append, List.mem_singleton] at hev
          rcases hev with rfl | hev
          · rfl
          · exact sisdir_no_mutation r _ ev hev
  · simp [evsOfStep]

theorem crpWalk_err_shape (r : Remote) (source root_dest : PyStr) (rex : Bool) :
    ∀ (ws : List (PyStr × List PyStr × List PyStr)) (st : PlanSt) (a b : PyStr) (evs : List Ev),
      crpWalk r source root_dest rex st ws = .typeMismatch a b evs →
      sftpExists r b = true ∧ sftpIsdir r b = false := by
  intro ws
  induction ws with
  | nil => intro st a b evs h; simp [crpWalk] at h
  | cons entry rest ih =>
    intro st a b evs h
    rw [crpWalk] at h
    cases hstep : crpStep r source root_dest rex st entry with
    | inr z =>
      obtain ⟨a1, b1, evs1⟩ := z
      rw [hstep] at h
      dsimp only at h
      simp only [WalkRes.typeMismatch.injEq] at h
      obtain ⟨rfl, rfl, rfl⟩ := h
      exact crpStep_inr_shape _ _ _ _ _ _ _ _ _ hstep
    | inl z =>
      obtain ⟨st1, evs1⟩ := z
      rw [hstep] at h
      dsimp only at h
      cases hrec : crpWalk r source root_dest rex st1 rest with
      | ok st2 evs2 => rw [hrec] at h; dsimp only at h; cases h
      | typeMismatch a2 b2 evs2 =>
        rw [hrec] at h
        dsimp only at h
        simp only [WalkRes.typeMismatch.injEq] at h
        obtain ⟨rfl, rfl, -⟩ := h
        exact ih st1 _ _ _ hrec

theorem crpWalk_ok_probes (r : Remote) (source root_dest : PyStr) (rex : Bool) :
    ∀ (ws : List (PyStr × List PyStr × List PyStr)) (st st2 : PlanSt) (evs : List Ev),
      crpWalk r source root_dest rex st ws = .ok st2 evs →
      ∀ p, Ev.statQ p ∈ evs → sftpExists r p = true → sftpIsdir r p = true := by
  intro ws
  induction ws with
  | nil =>
    intro st st2 evs h p hp
    rw [crpWalk] at h
    cases h
    simp at hp
  | cons entry rest ih =>
    intro st st2 evs h p hp hex
    rw [crpWalk] at h
    cases hstep : crpStep r source root_dest rex st entry with
    | inr z =>
      obtain ⟨a1, b1, evs1⟩ := z
      rw [hstep] at h
      dsimp only at h
      cases h
    | inl z =>
      obtain ⟨st1, evs1⟩ := z
      rw [hstep] at h
      dsimp only at h
      cases hrec : crpWalk r source root_dest rex st1 rest with
      | typeMismatch a2 b2 evs2 => rw [hrec] at h; dsimp only at h; cases h
      | ok st3 evs2 =>
        rw [hrec] at h
        dsimp only at h
        simp only [WalkRes.ok.injEq] at h
        obtain ⟨rfl, rfl⟩ := h
        rcases List.mem_append.mp hp with h1 | h2
        · exact crpStep_inl_probes _ _ _ _ _ _ _ _ hstep p h1 hex
        · exact ih st1 _ _ hrec p h2 hex

theorem crpWalk_no_mutation (r : Remote) (source root_dest : PyStr) (rex : Bool) :
    ∀ (ws : List (PyStr × List PyStr × List PyStr)) (st : PlanSt),
      ∀ ev ∈ evsOfWalk (crpWalk r source root_dest rex st ws), isMutation ev = false := by
  intro ws
  induction ws with
  | nil => intro st ev hev; simp [crpWalk, evsOfWalk] at hev
  | cons entry rest ih =>
    intro st ev hev
    rw [crpWalk] at hev
    cases hstep : crpStep r source root_dest rex st entry with
    | inr z =>
      obtain ⟨a1, b1, evs1⟩ := z
      rw [hstep] at hev
      dsimp only [evsOfWalk] at hev
      have hm := crpStep_no_mutation r source root_dest rex st entry ev
      rw [hstep] at hm
      exact hm hev
    | inl z =>
      obtain ⟨st1, evs1⟩ := z
      rw [hstep] at hev
      dsimp only at hev
      have hm := crpStep_no_mutation r source root_dest rex st entry ev
      rw [hstep] at hm
      have hr := ih st1 ev
      cases hrec : crpWalk r source root_dest rex st1 rest with
      | ok st3 evs2 =>
        rw [hrec] at hev hr
        dsimp only [evsOfWalk] at hev hr
        rcases List.mem_append.mp hev with h1 | h2
        · exact hm h1
        · exact hr h2
      | typeMismatch a2 b2 evs2 =>
        rw [hrec] at hev hr
        dsimp only [evsOfWalk] at hev hr
        rcases List.mem_append.mp hev with h1 | h2
        · exact hm h1
        · exact hr h2

theorem crp_err_shape (r : Remote) (l : LocalFS) (source root_dest : PyStr)
    (rdirs0 : List PyStr) (files0 : List (PyStr × PyStr)) (e : ScpError) (evs : List Ev)
    (h : constructRemotePaths r l source root_dest rdirs0 files0 = .err e evs) :
    ∃ a b, e = .typeMismatch a b ∧ sftpExists r b = true ∧ sftpIsdir r b = false := by
  unfold constructRemotePaths at h
  split at h
  · cases h
  · dsimp only at h
    cases hw : crpWalk r source root_dest (sisdir r root_dest).1
        { parentPath := root_dest, parentDestExists := (sisdir r root_dest).1,
          rdirs := rdirs0, files := files0 } (l.walk source) with
    | ok st evs1 => rw [hw] at h; cases h
    | typeMismatch a b evs1 =>
      rw [hw] at h
      simp only [PlanOut.err.injEq] at h
      obtain ⟨rfl, rfl⟩ := h
      obtain ⟨h1, h2⟩ := crpWalk_err_shape r source root_dest _ _ _ _ _ _ hw
      exact ⟨a, b, rfl, h1, h2⟩

theorem crp_no_mutation (r : Remote) (l : LocalFS) (source root_dest : PyStr)
    (rdirs0 : List PyStr) (files0 : List (PyStr × PyStr)) :
    ∀ ev ∈ evsOfPlan (constructRemotePaths r l source root_dest rdirs0 files0),
      isMutation ev = false := by
  intro ev hev
  unfold constructRemotePaths at hev
  split at hev
  · simp [evsOfPlan] at hev
  · dsimp only at hev
    have hwalk := crpWalk_no_mutation r source root_dest (sisdir r root_dest).1 (l.walk source)
        { parentPath := root_dest, parentDestExists := (sisdir r root_dest).1,
          rdirs := rdirs0, files := files0 } ev
    cases hw : crpWalk r source root_dest (sisdir r root_dest).1
        { parentPath := root_dest, parentDestExists := (sisdir r root_dest).1,
          rdirs := rdirs0, files := files0 } (l.walk source) with
    | ok st evs1 =>
      rw [hw] at hev hwalk
      dsimp only [evsOfPlan, evsOfWalk] at hev hwalk
      rcases List.mem_append.mp hev with h1 | h2
      · exact sisdir_no_mutation r root_dest ev h1
      · exact hwalk h2
    | typeMismatch a b evs1 =>
      rw [hw] at hev hwalk
      dsimp only [evsOfPlan, evsOfWalk] at hev hwalk
      rcases List.mem_append.mp hev with h1 | h2
      · exact sisdir_no_mutation r root_dest ev h1
      · exact hwalk h2

theorem patLoop_err_shape (r : Remote) (l : LocalFS) (root_dest : PyStr) :
    ∀ (ms : List PyStr) (rdirs : List PyStr) (files : List (PyStr × PyStr))
      (e : ScpError) (evs : List Ev),
      patLoop r l root_dest ms rdirs files = .err e evs →
      ∃ a b, e = .typeMismatch a b ∧ sftpExists r b = true ∧ sftpIsdir r b = false := by
  intro ms
  induction ms with
  | nil => intro rdirs files e evs h; simp [patLoop] at h
  | cons lfile rest ih =>
    intro rdirs files e evs h
    rw [patLoop] at h
    cases hc : constructRemotePaths r l lfile
        (if l.isdir lfile = true then joinpath root_dest (basename lfile) else root_dest)
        rdirs files with
    | ok rdirs1 files1 evs1 =>
      rw [hc] at h
      dsimp only at h
      cases hrec : patLoop r l root_dest rest rdirs1 files1 with
      | ok rdirs2 files2 evs2 => rw [hrec] at h; dsimp only at h; cases h
      | err e2 evs2 =>
        rw [hrec] at h
        dsimp only at h
        simp only [PlanOut.err.injEq] at h
        obtain ⟨rfl, -⟩ := h
        exact ih rdirs1 files1 _ _ hrec
    | err e1 evs1 =>
      rw [hc] at h
      dsimp only at h
      simp only [PlanOut.err.injEq] at h
      obtain ⟨rfl, rfl⟩ := h
      exact crp_err_shape _ _ _ _ _ _ _ _ hc

theorem patLoop_no_mutation (r : Remote) (l : LocalFS) (root_dest : PyStr) :
    ∀ (ms : List PyStr) (rdirs : List PyStr) (files : List (PyStr × PyStr)),
      ∀ ev ∈ evsOfPlan (patLoop r l root_dest ms rdirs files), isMutation ev = false := by
  intro ms
  induction ms with
  | nil => intro rdirs files ev hev; simp [patLoop, evsOfPlan] at hev
  | cons lfile rest ih =>
    intro rdirs files ev hev
    rw [patLoop] at hev
    have hcm := crp_no_mutation r l lfile
        (if l.isdir lfile = true then joinpath root_dest (basename lfile) else root_dest)
        rdirs files ev
    cases hc : constructRemotePaths r l lfile
        (if l.isdir lfile = true then joinpath root_dest (basename lfile) else root_dest)
        rdirs files with
    | ok rdirs1 files1 evs1 =>
      rw [hc] at hev hcm
      dsimp only [evsOfPlan] at hev hcm
      have hr := ih rdirs1 files1 ev
      cases hrec : patLoop r l root_dest rest rdirs1 files1 with
      | ok rdirs2 files2 evs2 =>
        rw [hrec] at hev hr
        dsimp only [evsOfPlan] at hev hr
        rcases List.mem_append.mp hev with h1 | h2
        · exact hcm h1
        · exact hr h2
      | err e2 evs2 =>
        rw [hrec] at hev hr
        dsimp only [evsOfPlan] at hev hr
        rcases List.mem_append.mp hev with h1 | h2
        · exact hcm h1
        · exact hr h2
    | err e1 evs1 =>
      rw [hc] at hev hcm
      dsimp only [evsOfPlan] at hev hcm
      exact hcm hev

theorem planOf_err_shape (r : Remote) (l : LocalFS) (s0 d0 : PyStr) (e : ScpError)
    (evs : List Ev) (h : planOf r l s0 d0 = .err e evs) :
    (∃ p, e = .sourceNotFound p)
    ∨ (∃ a b, e = .typeMismatch a b ∧ sftpExists r b = true ∧ sftpIsdir r b = false) := by
  unfold planOf at h
  dsimp only at h
  split at h
  · simp [getPathsSourceFile] at h
  · split at h
    · unfold getPathsSourceDir at h
      dsimp only at h
      cases hc : constructRemotePaths r l (normpath s0)
          (if (sisdir r (normpath d0)).1 = true then
            joinpath (normpath d0) (basename (normpath s0))
          else normpath d0) [] [] with
      | ok rdirs1 files1 evs1 => rw [hc] at h; dsimp only at h; cases h
      | err e1 evs1 =>
        rw [hc] at h
        dsimp only at h
        simp only [PlanOut.err.injEq] at h
        obtain ⟨rfl, -⟩ := h
        exact Or.inr (crp_err_shape _ _ _ _ _ _ _ _ hc)
    · unfold getPathsSourcePattern at h
      dsimp only at h
      split at h
      · simp only [PlanOut.err.injEq] at h
        obtain ⟨rfl, -⟩ := h
        exact Or.inl ⟨normpath s0, rfl⟩
      · cases hp : patLoop r l (normpath d0) (l.glob (normpath s0))
            (if (sisdir r (normpath d0)).1 = false then [normpath d0] else []) [] with
        | ok rdirs1 files1 evs1 => rw [hp] at h; dsimp only at h; cases h
        | err e1 evs1 =>
          rw [hp] at h
          dsimp only at h
          simp only [PlanOut.err.injEq] at h
          obtain ⟨rfl, -⟩ := h
          exact Or.inr (patLoop_err_shape _ _ _ _ _ _ _ _ hp)

theorem planOf_no_mutation (r : Remote) (l : LocalFS) (s0 d0 : PyStr) :
    ∀ ev ∈ evsOfPlan (planOf r l s0 d0), isMutation ev = false := by
  intro ev hev
  unfold planOf at hev
  dsimp only at hev
  split at hev
  · by_cases hd : (sisdir r (normpath d0)).1 = true <;>
      · simp only [getPathsSourceFile, evsOfPlan] at hev
        exact sisdir_no_mutation r (normpath d0) ev hev
  · split at hev
    · unfold getPathsSourceDir at hev
      dsimp only at hev
      have hcm := crp_no_mutation r l (normpath s0)
          (if (sisdir r (normpath d0)).1 = true then
            joinpath (normpath d0) (basename (normpath s0))
          else normpath d0) [] [] ev
      cases hc : constructRemotePaths r l (normpath s0)
          (if (sisdir r (normpath d0)).1 = true then
            joinpath (normpath d0) (basename (normpath s0))
          else normpath d0) [] [] with
      | ok rdirs1 files1 evs1 =>
        rw [hc] at hev hcm
        dsimp only [evsOfPlan] at hev hcm
        rcases List.mem_append.mp hev with h1 | h2
        · exact sisdir_no_mutation r (normpath d0) ev h1
        · exact hcm h2
      | err e1 evs1 =>
        rw [hc] at hev hcm
        dsimp only [evsOfPlan] at hev hcm
        rcases List.mem_append.mp hev with h1 | h2
        · exact sisdir_no_mutation r (normpath d0) ev h1
        · exact hcm h2
    · unfold getPathsSourcePattern at hev
      dsimp only at hev
      split at hev
      · simp [evsOfPlan] at hev
      · have hpm := patLoop_no_mutation r l (normpath d0) (l.glob (normpath s0))
            (if (sisdir r (normpath d0)).1 = false then [normpath d0] else []) [] ev
        cases hp : patLoop r l (normpath d0) (l.glob (normpath s0))
            (if (sisdir r (normpath d0)).1 = false then [normpath d0] else []) [] with
        | ok rdirs1 files1 evs1 =>
          rw [hp] at hev hpm
          dsimp only [evsOfPlan] at hev hpm
          rcases List.mem_append.mp hev with h1 | h2
          · exact sisdir_no_mutation r (normpath d0) ev h1
          · exact hpm h2
        | err e1 evs1 =>
          rw [hp] at hev hpm
          dsimp only [evsOfPlan] at hev hpm
          rcases List.mem_append.mp hev with h1 | h2
          · exact sisdir_no_mutation r (normpath d0) ev h1
          · exact hpm h2

theorem scp_gate_passed (r : Remote) (l : LocalFS) (s0 d0 : PyStr) (rec : Bool)
    (hg : ((l.isdir (normpath s0) || decide ((l.glob (normpath s0)).length > 1)) && !rec)
            = false) :
    scp r l s0 d0 rec = scpAfterGate r l s0 d0 := by
  unfold scp
  dsimp only
  rw [hg]
  simp

theorem scp_gate_failed (r : Remote) (l : LocalFS) (s0 d0 : PyStr)
    (hg : l.isdir (normpath s0) = true ∨ (l.glob (normpath s0)).length > 1) :
    scp r l s0 d0 false = .err .recursiveFlagRequired [] := by
  unfold scp
  dsimp only
  have : ((l.isdir (normpath s0) || decide ((l.glob (normpath s0)).length > 1)) && !false)
      = true := by
    rcases hg with h | h
    · simp [h]
    · simp [h]
  rw [this]
  simp

/-- C8: a glob-pattern source whose local expansion is empty makes scp
fail with the source-not-found error, and the only remote interaction
before the failure is establishing the session — no probe, mkdir or
upload is issued. -/
theorem c8_empty_glob_no_remote_contact :
    ∀ (r : Remote) (l : LocalFS) (s0 d0 : PyStr) (rec : Bool),
      l.glob (normpath s0) = [] → l.isfile (normpath s0) = false →
      l.isdir (normpath s0) = false →
      scp r l s0 d0 rec = .err (.sourceNotFound (normpath s0)) [Ev.connect]
      ∧ ([Ev.connect].filter isRemoteFsCall) = [] := by
  intro r l s0 d0 rec hg hf hd
  have hgate : ((l.isdir (normpath s0) || decide ((l.glob (normpath s0)).length > 1))
      && !rec) = false := by
    simp [hd, hg]
  rw [scp_gate_passed r l s0 d0 rec hgate]
  refine ⟨?_, rfl⟩
  unfold scpAfterGate planOf
  dsimp only
  rw [hf, hd]
  simp [getPathsSourcePattern, hg]

/-- Witness for C8: the empty filesystem and an unmatched pattern. -/
theorem c8_empty_glob_no_remote_contact_w :
    scp remoteAbsent lfsEmpty (ps "*.txt") (ps "/d") true
      = .err (.sourceNotFound (normpath (ps "*.txt"))) [Ev.connect]
    ∧ ([Ev.connect].filter isRemoteFsCall) = [] :=
  c8_empty_glob_no_remote_contact remoteAbsent lfsEmpty (ps "*.txt") (ps "/d") true
    rfl rfl rfl

/-- C9: a directory source, or a pattern matching more than one path,
without `recursive=True` fails with the recursive-flag error before any
remote contact (the trace is empty); with a non-directory source whose
expansion has at most one match, no scp failure is ever the
recursive-flag error. -/
theorem c9_recursive_flag_gate :
    (∀ (r : Remote) (l : LocalFS) (s0 d0 : PyStr),
       l.isdir (normpath s0) = true ∨ (l.glob (normpath s0)).length > 1 →
       scp r l s0 d0 false = .err .recursiveFlagRequired [])
    ∧ (∀ (r : Remote) (l : LocalFS) (s0 d0 : PyStr) (rec : Bool) (e : ScpError)
        (evs : List Ev),
       l.isdir (normpath s0) = false → (l.glob (normpath s0)).length ≤ 1 →
       scp r l s0 d0 rec = .err e evs → e ≠ .recursiveFlagRequired) := by
  constructor
  · exact scp_gate_failed
  · intro r l s0 d0 rec e evs hd hle h
    have hn : ¬ ((l.glob (normpath s0)).length > 1) := by omega
    have hgate : ((l.isdir (normpath s0) || decide ((l.glob (normpath s0)).length > 1))
        && !rec) = false := by
      simp [hd, hn]
    rw [scp_gate_passed r l s0 d0 rec hgate] at h
    unfold scpAfterGate at h
    cases hplan : planOf r l s0 d0 with
    | err e1 evs1 =>
      rw [hplan] at h
      dsimp only at h
      simp only [ScpOut.err.injEq] at h
      obtain ⟨rfl, -⟩ := h
      rcases planOf_err_shape _ _ _ _ _ _ hplan with ⟨p, rfl⟩ | ⟨a, b, rfl, -⟩ <;> simp
    | ok rdirs files evs1 =>
      rw [hplan] at h
      dsimp only at h
      cases hmk : mkdirPhase r rdirs with
      | mk o devs =>
        cases o with
        | some d =>
          rw [hmk] at h
          dsimp only at h
          simp only [ScpOut.err.injEq] at h
          obtain ⟨rfl, -⟩ := h
          simp
        | none =>
          rw [hmk] at h
          dsimp only at h
          cases hput : putPhase r files with
          | mk o2 uevs =>
            cases o2 with
            | some lr =>
              rw [hput] at h
              dsimp only at h
              simp only [ScpOut.err.injEq] at h
              obtain ⟨rfl, -⟩ := h
              simp
            | none =>
              rw [hput] at h
              dsimp only at h
              cases h

/-- Witness for C9: directory source without the flag fails, and a
failing single-pattern call raises a different error. -/
theorem c9_recursive_flag_gate_w :
    scp remoteAbsent (lfsForDir (ps "a") treeC4) (ps "a") (ps "/d") false
      = .err .recursiveFlagRequired []
    ∧ (ScpError.sourceNotFound (ps "*.txt")) ≠ .recursiveFlagRequired :=
  ⟨c9_recursive_flag_gate.1 remoteAbsent (lfsForDir (ps "a") treeC4) (ps "a") (ps "/d")
      (by decide),
   c9_recursive_flag_gate.2 remoteAbsent lfsEmpty (ps "*.txt") (ps "/d") true
      (.sourceNotFound (ps "*.txt")) [Ev.connect] (by decide) (by decide) (by decide)⟩

/-- C3: (i) a walk that completes without error never probed a path
that exists but is not a directory — equivalently, probing such a path
makes planning fail, and the only planning failure besides an empty
glob is the type-mismatch raise; (ii) when planning fails with the
type mismatch, the probed remote path did exist as a non-directory and
the message names both the conflicting local and remote paths; (iii) a
planning failure makes scp fail with that same error and its trace
contains no mkdir or upload call — the creation list built so far is
discarded (the error carries no list). -/
theorem c3_type_mismatch_fail_fast :
    (∀ (r : Remote) (source root_dest : PyStr) (rex : Bool)
        (ws : List (PyStr × List PyStr × List PyStr)) (st st2 : PlanSt) (evs : List Ev),
        crpWalk r source root_dest rex st ws = .ok st2 evs →
        ∀ p, Ev.statQ p ∈ evs → sftpExists r p = true → sftpIsdir r p = true)
    ∧ (∀ (r : Remote) (l : LocalFS) (s0 d0 a b : PyStr) (evs : List Ev),
        planOf r l s0 d0 = .err (.typeMismatch a b) evs →
        sftpExists r b = true ∧ sftpIsdir r b = false
        ∧ ∃ u v w, (ScpError.typeMismatch a b).message = u ++ a ++ v ++ b ++ w)
    ∧ (∀ (r : Remote) (l : LocalFS) (s0 d0 : PyStr) (rec : Bool) (e : ScpError)
        (evs : List Ev),
        planOf r l s0 d0 = .err e evs →
        scp r l s0 d0 rec = .err .recursiveFlagRequired []
        ∨ (scp r l s0 d0 rec = .err e (Ev.connect :: evs)
            ∧ ∀ ev ∈ Ev.connect :: evs, isMutation ev = false)) := by
  refine ⟨crpWalk_ok_probes, ?_, ?_⟩
  · intro r l s0 d0 a b evs h
    rcases planOf_err_shape _ _ _ _ _ _ h with ⟨p, hp⟩ | ⟨a1, b1, heq, h1, h2⟩
    · cases hp
    · cases heq
      refine ⟨h1, h2, ps "Copy aborted. Mismatch in file type Local: " ++ [qc],
        qc :: ps " Remote: " ++ [qc], [qc], ?_⟩
      simp [ScpError.message]
  · intro r l s0 d0 rec e evs h
    by_cases hgate : ((l.isdir (normpath s0) || decide ((l.glob (normpath s0)).length > 1))
        && !rec) = true
    · left
      unfold scp
      dsimp only
      rw [hgate]
      simp
    · right
      have hg2 : ((l.isdir (normpath s0) || decide ((l.glob (normpath s0)).length > 1))
          && !rec) = false := by
        revert hgate
        cases ((l.isdir (normpath s0) || decide ((l.glob (normpath s0)).length > 1))
          && !rec) <;> simp
      rw [scp_gate_passed r l s0 d0 rec hg2]
      constructor
      · unfold scpAfterGate
        rw [h]
      · intro ev hev
        rcases List.mem_cons.mp hev with rfl | h2
        · rfl
        · have hm := planOf_no_mutation r l s0 d0 ev
          rw [h] at hm
          exact hm h2

/-- Witness for C3 at the spec's conflict scenario rebuilt under the
effective root: `/d` and `/d/a` are remote directories, `/d/a/b` is a
remote plain file, local source `a` contains subdirectory `b`. -/
theorem c3_type_mismatch_fail_fast_w :
    sftpExists (remoteWith [ps "/d", ps "/d/a"] [ps "/d/a/b"]) (ps "/d/a/b") = true
    ∧ sftpIsdir (remoteWith [ps "/d", ps "/d/a"] [ps "/d/a/b"]) (ps "/d/a/b") = false
    ∧ ∃ u v w, (ScpError.typeMismatch (ps "a/b") (ps "/d/a/b")).message
        = u ++ ps "a/b" ++ v ++ ps "/d/a/b" ++ w :=
  c3_type_mismatch_fail_fast.2.1 (remoteWith [ps "/d", ps "/d/a"] [ps "/d/a/b"])
    (lfsForDir (ps "a") treeC4) (ps "a") (ps "/d") (ps "a/b") (ps "/d/a/b")
    (evsOfPlan (planOf (remoteWith [ps "/d", ps "/d/a"] [ps "/d/a/b"])
      (lfsForDir (ps "a") treeC4) (ps "a") (ps "/d")))
    (by decide)

theorem crpWalk_absent_root (r : Remote) (source root_dest : PyStr) :
    ∀ (ws : List (PyStr × List PyStr × List PyStr)) (st : PlanSt),
      crpWalk r source root_dest false st ws =
        .ok { parentPath := st.parentPath, parentDestExists := st.parentDestExists,
              rdirs := st.rdirs ++ ws.map (fun e => normpath (destDirOf source root_dest e.1)),
              files := st.files ++ ws.flatMap (fun e =>
                e.2.2.map (fun f =>
                  (joinpath e.1 f, joinpath (destDirOf source root_dest e.1) f))) } [] := by
  intro ws
  induction ws with
  | nil => intro st; simp [crpWalk]
  | cons entry rest ih =>
    intro st
    rw [crpWalk]
    have hstep : crpStep r source root_dest false st entry =
        .inl ({ st with
                rdirs := st.rdirs ++ [normpath (destDirOf source root_dest entry.1)],
                files := st.files ++ entry.2.2.map (fun f =>
                  (joinpath entry.1 f, joinpath (destDirOf source root_dest entry.1) f)) },
              []) := by
      simp [crpStep]
    rw [hstep]
    dsimp only
    rw [ih]
    simp [List.append_assoc]

/-- C4: when the initial probe reports the remote root not to be an
existing directory, the walk appends every visited subdirectory's
counterpart to the creation list unconditionally and issues no probe at
all (the trace of the whole walk is empty); on the spec's end-to-end
example (source `a` with `a/x.txt`, `a/b/y.txt`, absent `/remote/d`)
the plan is exactly the claimed creation list and file mappings. -/
theorem c4_absent_root_unconditional :
    (∀ (r : Remote) (source root_dest : PyStr)
       (ws : List (PyStr × List PyStr × List PyStr)) (st : PlanSt),
       crpWalk r source root_dest false st ws =
         .ok { parentPath := st.parentPath, parentDestExists := st.parentDestExists,
               rdirs := st.rdirs ++ ws.map (fun e => normpath (destDirOf source root_dest e.1)),
               files := st.files ++ ws.flatMap (fun e =>
                 e.2.2.map (fun f =>
                   (joinpath e.1 f, joinpath (destDirOf source root_dest e.1) f))) } [])
    ∧ getPathsSourceDir remoteAbsent (lfsForDir (ps "a") treeC4) (ps "a") (ps "/remote/d")
        = .ok [ps "/remote/d", ps "/remote/d/b"]
            [(ps "a/x.txt", ps "/remote/d/x.txt"), (ps "a/b/y.txt", ps "/remote/d/b/y.txt")]
            [.statQ (ps "/remote/d"), .statQ (ps "/remote/d")] :=
  ⟨crpWalk_absent_root, by decide⟩

theorem crpStep_inl_files (r : Remote) (source root_dest : PyStr) (rex : Bool) (st : PlanSt)
    (entry : PyStr × List PyStr × List PyStr) (st1 : PlanSt) (evs : List Ev)
    (h : crpStep r source root_dest rex st entry = .inl (st1, evs)) :
    st1.files = st.files ++ entry.2.2.map (fun f =>
      (joinpath entry.1 f, joinpath (destDirOf source root_dest entry.1) f)) := by
  simp only [crpStep] at h
  split at h
  · split at h
    · simp only [Sum.inl.injEq, Prod.mk.injEq] at h
      obtain ⟨rfl, -⟩ := h
      rfl
    · split at h
      · simp only [Sum.inl.injEq, Prod.mk.injEq] at h
        obtain ⟨rfl, -⟩ := h
        rfl
      · split at h
        · cases h
        · simp only [Sum.inl.injEq, Prod.mk.injEq] at h
          obtain ⟨rfl, -⟩ := h
          rfl
  · simp only [Sum.inl.injEq, Prod.mk.injEq] at h
    obtain ⟨rfl, -⟩ := h
    rfl

theorem crpWalk_ok_files_length (r : Remote) (source root_dest : PyStr) (rex : Bool) :
    ∀ (ws : List (PyStr × List PyStr × List PyStr)) (st st2 : PlanSt) (evs : List Ev),
      crpWalk r source root_dest rex st ws = .ok st2 evs →
      st2.files.length = st.files.length + (ws.map (fun e => e.2.2.length)).sum := by
  intro ws
  induction ws with
  | nil =>
    intro st st2 evs h
    rw [crpWalk] at h
    cases h
    simp
  | cons entry rest ih =>
    intro st st2 evs h
    rw [crpWalk] at h
    cases hstep : crpStep r source root_dest rex st entry with
    | inr z =>
      obtain ⟨a1, b1, evs1⟩ := z
      rw [hstep] at h
      cases h
    | inl z =>
      obtain ⟨st1, evs1⟩ := z
      rw [hstep] at h
      dsimp only at h
      cases hrec : crpWalk r source root_dest rex st1 rest with
      | typeMismatch a2 b2 evs2 => rw [hrec] at h; cases h
      | ok st3 evs2 =>
        rw [hrec] at h
        dsimp only at h
        simp only [WalkRes.ok.injEq] at h
        obtain ⟨h3, -⟩ := h
        have h1 := ih st1 st3 evs2 hrec
        have h2 := crpStep_inl_files r source root_dest rex st entry st1 evs1 hstep
        rw [← h3, h1, h2]
        simp only [List.length_append, List.length_map, List.map_cons, List.sum_cons]
        omega

theorem crp_ok_files_length (r : Remote) (l : LocalFS) (source root_dest : PyStr)
    (rdirs0 : List PyStr) (files0 : List (PyStr × PyStr)) (rdirs : List PyStr)
    (files : List (PyStr × PyStr)) (evs : List Ev)
    (hf : l.isfile source = false)
    (h : constructRemotePaths r l source root_dest rdirs0 files0 = .ok rdirs files evs) :
    files.length = files0.length + ((l.walk source).map (fun e => e.2.2.length)).sum := by
  unfold constructRemotePaths at h
  rw [hf] at h
  simp only [Bool.false_eq_true, if_false] at h
  cases hwk : crpWalk r source root_dest (sisdir r root_dest).1
      { parentPath := root_dest, parentDestExists := (sisdir r root_dest).1,
        rdirs := rdirs0, files := files0 } (l.walk source) with
  | typeMismatch a b evs1 => rw [hwk] at h; cases h
  | ok st2 evs2 =>
    rw [hwk] at h
    dsimp only at h
    simp only [PlanOut.ok.injEq] at h
    obtain ⟨-, rfl, -⟩ := h
    simpa using crpWalk_ok_files_length r source root_dest _ _ _ _ _ hwk

theorem gpsd_ok_from_crp (r : Remote) (l : LocalFS) (source dest : PyStr)
    (rdirs : List PyStr) (files : List (PyStr × PyStr)) (evs : List Ev)
    (h : getPathsSourceDir r l source dest = .ok rdirs files evs) :
    ∃ evs1, constructRemotePaths r l source
      (if (sisdir r dest).1 = true then joinpath dest (basename source) else dest) [] []
      = .ok rdirs files evs1 := by
  unfold getPathsSourceDir at h
  dsimp only at h
  cases hc : constructRemotePaths r l source
      (if (sisdir r dest).1 = true then joinpath dest (basename source) else dest) [] [] with
  | ok a b c =>
    rw [hc] at h
    dsimp only at h
    simp only [PlanOut.ok.injEq] at h
    obtain ⟨rfl, rfl, -⟩ := h
    exact ⟨c, rfl⟩
  | err e1 evs1 =>
    rw [hc] at h
    dsimp only at h
    cases h

theorem planOf_dir_case (r : Remote) (l : LocalFS) (s0 d0 : PyStr)
    (hf : l.isfile (normpath s0) = false) (hd : l.isdir (normpath s0) = true) :
    planOf r l s0 d0 = getPathsSourceDir r l (normpath s0) (normpath d0) := by
  unfold planOf
  dsimp only
  rw [hf, hd]
  simp

mutual
theorem walkFrom_files_sum (base : PyStr) : ∀ (t : FTree),
    ((walkFrom base t).map (fun e => e.2.2.length)).sum = countFiles t
  | .node fs subs => by
    rw [walkFrom, countFiles]
    simp only [List.map_cons, List.sum_cons]
    rw [walkForest_files_sum base subs]

theorem walkForest_files_sum (base : PyStr) : ∀ (f : FForest),
    ((walkForest base f).map (fun e => e.2.2.length)).sum = countForest f
  | .fnil => by simp [walkForest, countForest]
  | .fcons n t rest => by
    rw [walkForest, countForest]
    simp only [List.map_append, List.sum_append]
    rw [walkFrom_files_sum (joinpath base n) t, walkForest_files_sum base rest]
end

/-- C6: for a directory-source planning pass that completes without
error, the number of file mappings equals the total number of files
anywhere in the local source tree, whatever the probe answers. -/
theorem c6_file_count_invariant :
    ∀ (r : Remote) (l : LocalFS) (s0 d0 : PyStr) (t : FTree)
      (rdirs : List PyStr) (files : List (PyStr × PyStr)) (evs : List Ev),
      l.isfile (normpath s0) = false →
      l.isdir (normpath s0) = true →
      l.walk (normpath s0) = walkFrom (normpath s0) t →
      planOf r l s0 d0 = .ok rdirs files evs →
      files.length = countFiles t := by
  intro r l s0 d0 t rdirs files evs hf hd hw hplan
  rw [planOf_dir_case r l s0 d0 hf hd] at hplan
  obtain ⟨evs1, hc⟩ := gpsd_ok_from_crp _ _ _ _ _ _ _ hplan
  have := crp_ok_files_length _ _ _ _ _ _ _ _ _ hf hc
  rw [hw, walkFrom_files_sum] at this
  simpa using this

/-- Witness for C6: the end-to-end tree with everything absent
remotely; the plan has exactly two file mappings, and the tree holds
two files. -/
theorem c6_file_count_invariant_w :
    (filesOfPlan (planOf remoteAbsent (lfsForDir (ps "a") treeC4) (ps "a")
      (ps "/remote/d"))).length = countFiles treeC4 :=
  c6_file_count_invariant remoteAbsent (lfsForDir (ps "a") treeC4) (ps "a") (ps "/remote/d")
    treeC4
    (rdirsOfPlan (planOf remoteAbsent (lfsForDir (ps "a") treeC4) (ps "a") (ps "/remote/d")))
    (filesOfPlan (planOf remoteAbsent (lfsForDir (ps "a") treeC4) (ps "a") (ps "/remote/d")))
    (evsOfPlan (planOf remoteAbsent (lfsForDir (ps "a") treeC4) (ps "a") (ps "/remote/d")))
    rfl rfl rfl (by decide)

/-! ### String lemmas towards normpath idempotence -/

theorem splitSlash_ne_nil (p : PyStr) : splitSlash p ≠ [] := by
  induction p with
  | nil => simp [splitSlash]
  | cons c cs ih =>
    rw [splitSlash]
    split
    · simp
    · cases h : splitSlash cs with
      | nil => exact absurd h ih
      | cons x xs => simp [List.modifyHead]

theorem mem_splitSlash_noSlash (p : PyStr) : ∀ c ∈ splitSlash p, '/' ∉ c := by
  induction p with
  | nil =>
    intro c hc
    simp only [splitSlash, List.mem_singleton] at hc
    subst hc
    simp
  | cons a as ih =>
    intro c hc
    rw [splitSlash] at hc
    by_cases ha : a = '/'
    · rw [if_pos ha] at hc
      rcases List.mem_cons.mp hc with rfl | h2
      · simp
      · exact ih c h2
    · rw [if_neg ha] at hc
      cases h : splitSlash as with
      | nil => exact absurd h (splitSlash_ne_nil as)
      | cons x xs =>
        rw [h] at hc
        simp only [List.modifyHead] at hc
        rcases List.mem_cons.mp hc with rfl | h2
        · intro hmem
          rcases List.mem_cons.mp hmem with h3 | h3
          · exact ha h3.symm
          · exact ih x (h ▸ List.mem_cons_self x xs) h3
        · exact ih c (h ▸ List.mem_cons_of_mem x h2)

theorem noSlash_splitSlash (c : PyStr) (h : '/' ∉ c) : splitSlash c = [c] := by
  induction c with
  | nil => rfl
  | cons a as ih =>
    rw [splitSlash]
    have ha : ¬ a = '/' := by
      intro hh
      exact h (by rw [hh]; exact List.mem_cons_self '/' as)
    rw [if_neg ha, ih (fun hm => h (List.mem_cons_of_mem a hm))]
    rfl

theorem splitSlash_append_noSlash (c : PyStr) (r : PyStr) (h : '/' ∉ c) :
    splitSlash (c ++ r) = (splitSlash r).modifyHead (fun x => c ++ x) := by
  induction c with
  | nil =>
    cases hr : splitSlash r with
    | nil => exact absurd hr (splitSlash_ne_nil r)
    | cons x xs => simp [List.modifyHead, hr]
  | cons a as ih =>
    have ha : ¬ a = '/' := by
      intro hh
      exact h (by rw [hh]; exact List.mem_cons_self '/' as)
    have h2 : '/' ∉ as := fun hm => h (List.mem_cons_of_mem a hm)
    rw [List.cons_append, splitSlash, if_neg ha, ih h2]
    cases hr : splitSlash r with
    | nil => exact absurd hr (splitSlash_ne_nil r)
    | cons x xs => simp [List.modifyHead, hr]

theorem splitSlash_slashes (k : Nat) (r : PyStr) :
    splitSlash (List.replicate k '/' ++ r) = List.replicate k [] ++ splitSlash r := by
  induction k with
  | zero => simp
  | succ n ih =>
    rw [List.replicate_succ, List.cons_append, splitSlash, if_pos rfl, ih,
      List.replicate_succ, List.cons_append]

theorem splitSlash_joinSlash : ∀ (cs : List PyStr), cs ≠ [] → (∀ c ∈ cs, '/' ∉ c) →
    splitSlash (joinSlash cs) = cs
  | [], h, _ => absurd rfl h
  | [c], _, hns => by
    rw [joinSlash]
    exact noSlash_splitSlash c (hns c (List.mem_cons_self c []))
  | c :: c2 :: cs, _, hns => by
    rw [joinSlash, splitSlash_append_noSlash c _ (hns c (List.mem_cons_self _ _))]
    have hsub : splitSlash ('/' :: joinSlash (c2 :: cs)) = [] :: splitSlash (joinSlash (c2 :: cs)) := by
      rw [splitSlash, if_pos rfl]
    rw [hsub, splitSlash_joinSlash (c2 :: cs) (by simp)
      (fun x hx => hns x (List.mem_cons_of_mem c hx))]
    simp [List.modifyHead]

theorem joinSlash_cons_ex (c : PyStr) (cs : List PyStr) :
    ∃ t, joinSlash (c :: cs) = c ++ t := by
  cases cs with
  | nil => exact ⟨[], by simp [joinSlash]⟩
  | cons c2 cs2 => exact ⟨'/' :: joinSlash (c2 :: cs2), by rw [joinSlash]⟩

theorem joinSlash_concat_getLast? : ∀ (cs : List PyStr) (c : PyStr), c ≠ [] →
    (joinSlash (cs ++ [c])).getLast? = c.getLast?
  | [], c, _ => by simp [joinSlash]
  | a :: as, c, h => by
    have hne : joinSlash ((a :: as) ++ [c]) = a ++ '/' :: joinSlash (as ++ [c]) := by
      cases as <;> rfl
    rw [hne, List.getLast?_append_of_ne_nil a (by simp)]
    have hrec := joinSlash_concat_getLast? as c h
    have hcl : c.getLast?.isSome := by
      cases c with
      | nil => exact absurd rfl h
      | cons x xs => simp [List.getLast?_isSome]
    cases hXc : joinSlash (as ++ [c]) with
    | nil =>
      rw [hXc] at hrec
      rw [← hrec] at hcl
      simp at hcl
    | cons x xs =>
      rw [hXc] at hrec
      rw [List.getLast?_cons_cons, hrec]

theorem foldl_normStep_plain (init : Bool) :
    ∀ (comps : List PyStr) (acc : List PyStr),
      (∀ c ∈ comps, c ≠ [] ∧ c ≠ ['.'] ∧ c ≠ ['.', '.']) →
      comps.foldl (normStep init) acc = acc ++ comps := by
  intro comps
  induction comps with
  | nil => intro acc _; simp
  | cons c cs ih =>
    intro acc h
    obtain ⟨h1, h2, h3⟩ := h c (List.mem_cons_self c cs)
    rw [List.foldl_cons]
    have hstep : normStep init acc c = acc ++ [c] := by
      unfold normStep
      rw [if_neg (not_or.mpr ⟨h1, h2⟩), if_pos (Or.inl h3)]
    rw [hstep, ih _ (fun x hx => h x (List.mem_cons_of_mem c hx))]
    simp

theorem foldl_normStep_dots :
    ∀ (j i : Nat),
      (List.replicate j ['.', '.']).foldl (normStep false) (List.replicate i ['.', '.'])
        = List.replicate (i + j) ['.', '.'] := by
  intro j
  induction j with
  | zero => intro i; simp
  | succ n ih =>
    intro i
    rw [List.replicate_succ, List.foldl_cons]
    have hstep : normStep false (List.replicate i ['.', '.']) ['.', '.']
        = List.replicate (i + 1) ['.', '.'] := by
      unfold normStep
      rw [if_neg (by simp), if_pos ?_, ← List.replicate_succ']
      cases i with
      | zero => exact Or.inr (Or.inl ⟨rfl, by simp⟩)
      | succ m =>
        refine Or.inr (Or.inr ⟨by simp, ?_⟩)
        rw [List.getLast?_replicate]
        simp
    rw [hstep, ih (i + 1)]
    congr 1
    omega

theorem normStep_inv (init : Bool) (acc : List PyStr) (comp : PyStr) (hc : '/' ∉ comp)
    (h1 : ∀ c ∈ acc, c ≠ [] ∧ c ≠ ['.'] ∧ '/' ∉ c)
    (h2 : init = true → ['.', '.'] ∉ acc)
    (h3 : init = false → ∃ j rest, acc = List.replicate j ['.', '.'] ++ rest ∧ ['.', '.'] ∉ rest) :
    (∀ c ∈ normStep init acc comp, c ≠ [] ∧ c ≠ ['.'] ∧ '/' ∉ c)
    ∧ (init = true → ['.', '.'] ∉ normStep init acc comp)
    ∧ (init = false → ∃ j rest, normStep init acc comp
          = List.replicate j ['.', '.'] ++ rest ∧ ['.', '.'] ∉ rest) := by
  unfold normStep
  split
  · exact ⟨h1, h2, h3⟩
  next hne =>
    obtain ⟨hne1, hne2⟩ := not_or.mp hne
    split
    next hcond =>
      refine ⟨?_, ?_, ?_⟩
      · intro c hmem
        rcases List.mem_append.mp hmem with hm | hm
        · exact h1 c hm
        · rw [List.mem_singleton] at hm
          subst hm
          exact ⟨hne1, hne2, hc⟩
      · intro hinit hmem
        rcases List.mem_append.mp hmem with hm | hm
        · exact h2 hinit hm
        · rw [List.mem_singleton] at hm
          rcases hcond with hx | hx | hx
          · exact hx hm.symm
          · exact absurd (hinit ▸ hx.1) (by simp)
          · obtain ⟨hane, hlast⟩ := hx
            have hmm : ['.', '.'] ∈ acc.getLast? := hlast
            obtain ⟨hne', heq⟩ := List.mem_getLast?_eq_getLast hmm
            exact h2 hinit (heq ▸ List.getLast_mem hne')
      · intro hinit
        obtain ⟨j, rest, hacc, hrest⟩ := h3 hinit
        by_cases hdd : comp = ['.', '.']
        · rcases hcond with hx | hx | hx
          · exact absurd hdd hx
          · obtain ⟨-, hae⟩ := hx
            subst hdd
            refine ⟨1, [], ?_, by simp⟩
            rw [hae]
            rfl
          · obtain ⟨hane, hlast⟩ := hx
            have hrest_nil : rest = [] := by
              rcases List.eq_nil_or_concat rest with hre | ⟨L, b, hre⟩
              · exact hre
              · exfalso
                rw [hre, List.concat_eq_append] at hacc
                rw [hacc, ← List.append_assoc, List.getLast?_concat] at hlast
                have hb : b = ['.', '.'] := by
                  injection hlast
                exact hrest (by rw [hre, List.concat_eq_append, hb]; simp)
            subst hrest_nil
            subst hdd
            refine ⟨j + 1, [], ?_, by simp⟩
            rw [List.append_nil] at hacc
            rw [List.replicate_succ', hacc]
            simp
        · subst hacc
          refine ⟨j, rest ++ [comp], by rw [List.append_assoc], ?_⟩
          intro hmem
          rcases List.mem_append.mp hmem with hm | hm
          · exact hrest hm
          · rw [List.mem_singleton] at hm
            exact hdd hm.symm
    next =>
      split
      next hane =>
        refine ⟨?_, ?_, ?_⟩
        · intro c hmem
          exact h1 c ((List.dropLast_sublist acc).subset hmem)
        · intro hinit hmem
          exact h2 hinit ((List.dropLast_sublist acc).subset hmem)
        · intro hinit
          obtain ⟨j, rest, hacc, hrest⟩ := h3 hinit
          subst hacc
          rcases List.eq_nil_or_concat rest with hre | ⟨L, b, hre⟩
          · subst hre
            cases j with
            | zero => exact ⟨0, [], by simp, by simp⟩
            | succ m =>
              refine ⟨m, [], ?_, by simp⟩
              rw [List.append_nil, List.replicate_succ', List.dropLast_concat, List.append_nil]
          · subst hre
            refine ⟨j, L, ?_, fun hm => hrest (by rw [List.concat_eq_append]; exact List.mem_append.mpr (Or.inl hm))⟩
            rw [List.concat_eq_append, ← List.append_assoc, List.dropLast_concat]
      next => exact ⟨h1, h2, h3⟩

theorem foldl_normStep_inv (init : Bool) :
    ∀ (comps : List PyStr) (acc : List PyStr),
      (∀ c ∈ comps, '/' ∉ c) →
      (∀ c ∈ acc, c ≠ [] ∧ c ≠ ['.'] ∧ '/' ∉ c) →
      (init = true → ['.', '.'] ∉ acc) →
      (init = false → ∃ j rest, acc = List.replicate j ['.', '.'] ++ rest ∧ ['.', '.'] ∉ rest) →
      (∀ c ∈ comps.foldl (normStep init) acc, c ≠ [] ∧ c ≠ ['.'] ∧ '/' ∉ c)
      ∧ (init = true → ['.', '.'] ∉ comps.foldl (normStep init) acc)
      ∧ (init = false → ∃ j rest, comps.foldl (normStep init) acc
            = List.replicate j ['.', '.'] ++ rest ∧ ['.', '.'] ∉ rest) := by
  intro comps
  induction comps with
  | nil => intro acc _ ha hb hc; exact ⟨ha, hb, hc⟩
  | cons c cs ih =>
    intro acc hns ha hb hc
    rw [List.foldl_cons]
    obtain ⟨g1, g2, g3⟩ := normStep_inv init acc c (hns c (List.mem_cons_self c cs)) ha hb hc
    exact ih _ (fun x hx => hns x (List.mem_cons_of_mem c hx)) g1 g2 g3

theorem foldl_normStep_empties (init : Bool) :
    ∀ (k : Nat) (acc : List PyStr),
      (List.replicate k ([] : PyStr)).foldl (normStep init) acc = acc := by
  intro k
  induction k with
  | zero => intro acc; rfl
  | succ n ih =>
    intro acc
    rw [List.replicate_succ, List.foldl_cons]
    have hskip : normStep init acc [] = acc := by
      unfold normStep
      rw [if_pos (Or.inl rfl)]
    rw [hskip, ih]

theorem initialSlashes_cases (p : PyStr) :
    initialSlashes p = 0 ∨ initialSlashes p = 1 ∨ initialSlashes p = 2 := by
  unfold initialSlashes
  split
  · split
    · exact Or.inr (Or.inr rfl)
    · exact Or.inr (Or.inl rfl)
  · exact Or.inl rfl

theorem initialSlashes_of_head (k : Nat) (hk : k = 0 ∨ k = 1 ∨ k = 2) (ch : Char)
    (hch : ch ≠ '/') (t : PyStr) :
    initialSlashes (List.replicate k '/' ++ ch :: t) = k := by
  have hch' : ('/' == ch) = false := beq_eq_false_iff_ne.mpr (Ne.symm hch)
  rcases hk with rfl | rfl | rfl
  · simp only [List.replicate_zero, List.nil_append]
    have h1 : ¬ (List.isPrefixOf ['/'] (ch :: t) = true) := by
      simp [List.isPrefixOf, hch']
    unfold initialSlashes
    rw [if_neg h1]
  · simp only [List.replicate_succ, List.replicate_zero, List.cons_append, List.nil_append]
    have h1 : List.isPrefixOf ['/'] ('/' :: ch :: t) = true := by
      simp [List.isPrefixOf]
    have h2 : ¬ (List.isPrefixOf ['/', '/'] ('/' :: ch :: t) = true
        ∧ ¬ List.isPrefixOf ['/', '/', '/'] ('/' :: ch :: t) = true) := by
      intro hAnd
      have hx := hAnd.1
      simp [List.isPrefixOf, hch'] at hx
    unfold initialSlashes
    rw [if_pos h1, if_neg h2]
  · simp only [List.replicate_succ, List.replicate_zero, List.cons_append, List.nil_append]
    have h1 : List.isPrefixOf ['/'] ('/' :: '/' :: ch :: t) = true := by
      simp [List.isPrefixOf]
    have h2 : List.isPrefixOf ['/', '/'] ('/' :: '/' :: ch :: t) = true
        ∧ ¬ List.isPrefixOf ['/', '/', '/'] ('/' :: '/' :: ch :: t) = true := by
      constructor
      · simp [List.isPrefixOf]
      · simp [List.isPrefixOf, hch']
    unfold initialSlashes
    rw [if_pos h1, if_pos h2]

theorem normpath_render (k : Nat) (cs : List PyStr)
    (hk : k = 0 ∨ k = 1 ∨ k = 2)
    (hN1 : ∀ c ∈ cs, c ≠ [] ∧ c ≠ ['.'] ∧ '/' ∉ c)
    (hN2 : k ≠ 0 → ['.', '.'] ∉ cs)
    (hN3 : k = 0 → ∃ j rest, cs = List.replicate j ['.', '.'] ++ rest ∧ ['.', '.'] ∉ rest)
    (ho : List.replicate k '/' ++ joinSlash cs ≠ []) :
    normpath (List.replicate k '/' ++ joinSlash cs) = List.replicate k '/' ++ joinSlash cs := by
  cases cs with
  | nil =>
    rcases hk with rfl | rfl | rfl
    · simp [joinSlash] at ho
    · decide
    · decide
  | cons c0 cs' =>
    obtain ⟨hc0ne, -, hc0ns⟩ := hN1 c0 (List.mem_cons_self c0 cs')
    obtain ⟨ch, c0t, rfl⟩ : ∃ ch c0t, c0 = ch :: c0t := by
      cases c0 with
      | nil => exact absurd rfl hc0ne
      | cons x xs => exact ⟨x, xs, rfl⟩
    have hch : ch ≠ '/' := fun hh => hc0ns (hh ▸ List.mem_cons_self ch c0t)
    obtain ⟨t0, ht0⟩ := joinSlash_cons_ex (ch :: c0t) cs'
    have hinit : initialSlashes (List.replicate k '/' ++ joinSlash ((ch :: c0t) :: cs')) = k := by
      rw [ht0, List.cons_append]
      exact initialSlashes_of_head k hk ch hch _
    have hsplit : splitSlash (List.replicate k '/' ++ joinSlash ((ch :: c0t) :: cs'))
        = List.replicate k [] ++ ((ch :: c0t) :: cs') := by
      rw [splitSlash_slashes, splitSlash_joinSlash ((ch :: c0t) :: cs') (by simp)
        (fun c hcm => (hN1 c hcm).2.2)]
    have hfold : normComps (k != 0) (List.replicate k [] ++ ((ch :: c0t) :: cs'))
        = (ch :: c0t) :: cs' := by
      unfold normComps
      rw [List.foldl_append, foldl_normStep_empties]
      by_cases hk0 : k = 0
      · obtain ⟨j, rest, hcs, hrest⟩ := hN3 hk0
        subst hk0
        have hplain : ∀ c ∈ rest, c ≠ [] ∧ c ≠ ['.'] ∧ c ≠ ['.', '.'] := by
          intro c hcm
          have hcm' : c ∈ (ch :: c0t) :: cs' := by
            rw [hcs]
            exact List.mem_append_right _ hcm
          exact ⟨(hN1 c hcm').1, (hN1 c hcm').2.1, fun hdd => hrest (hdd ▸ hcm)⟩
        rw [hcs, List.foldl_append,
          show (List.replicate j ['.', '.']).foldl (normStep ((0 : Nat) != 0)) []
              = List.replicate j ['.', '.'] from by simpa using foldl_normStep_dots j 0,
          foldl_normStep_plain ((0 : Nat) != 0) rest (List.replicate j ['.', '.']) hplain]
      · have hplain : ∀ c ∈ (ch :: c0t) :: cs', c ≠ [] ∧ c ≠ ['.'] ∧ c ≠ ['.', '.'] := by
          intro c hcm
          exact ⟨(hN1 c hcm).1, (hN1 c hcm).2.1, fun hdd => (hN2 hk0) (hdd ▸ hcm)⟩
        rw [foldl_normStep_plain (k != 0) ((ch :: c0t) :: cs') [] hplain]
        simp
    rw [normpath, if_neg ho]
    dsimp only
    rw [hinit, hsplit, hfold, if_neg ho]

theorem normpath_idem (p : PyStr) : normpath (normpath p) = normpath p := by
  by_cases hp : p = []
  · subst hp
    decide
  · obtain ⟨hN1, hN2q, hN3q⟩ := foldl_normStep_inv (initialSlashes p != 0) (splitSlash p) []
      (mem_splitSlash_noSlash p) (by simp) (by simp)
      (by intro _; exact ⟨0, [], by simp, by simp⟩)
    by_cases ho : List.replicate (initialSlashes p) '/'
        ++ joinSlash (normComps (initialSlashes p != 0) (splitSlash p)) = []
    · have hrw : normpath p = ['.'] := by
        rw [normpath, if_neg hp]
        dsimp only
        rw [if_pos ho]
      rw [hrw]
      decide
    · have hrw : normpath p = List.replicate (initialSlashes p) '/'
          ++ joinSlash (normComps (initialSlashes p != 0) (splitSlash p)) := by
        rw [normpath, if_neg hp]
        dsimp only
        rw [if_neg ho]
      rw [hrw]
      exact normpath_render (initialSlashes p) _ (initialSlashes_cases p) hN1
        (fun hk0 => hN2q (by simpa using hk0)) (fun hk0 => hN3q (by simp [hk0])) ho

/-! ### dirname / basename lemmas -/

theorem dropWhile_append_all (p : Char → Bool) (xs ys : List Char)
    (h : ∀ x ∈ xs, p x = true) :
    List.dropWhile p (xs ++ ys) = List.dropWhile p ys := by
  induction xs with
  | nil => rfl
  | cons a as ih =>
    rw [List.cons_append, List.dropWhile_cons, if_pos (h a (List.mem_cons_self a as))]
    exact ih (fun x hx => h x (List.mem_cons_of_mem a hx))

theorem reverse_noSlash_dropWhile (f : PyStr) (hf2 : '/' ∉ f) (ys : List Char) :
    List.dropWhile (fun c => c ≠ '/') (f.reverse ++ ys)
      = List.dropWhile (fun c => c ≠ '/') ys := by
  apply dropWhile_append_all
  intro x hx
  have hm : x ∈ f := List.mem_reverse.mp hx
  have hxne : x ≠ '/' := fun hh => hf2 (hh ▸ hm)
  simp [hxne]

theorem dropWhile_ne_slash_head (rest : List Char) :
    List.dropWhile (fun c => c ≠ '/') ('/' :: rest) = '/' :: rest := by
  rw [List.dropWhile_cons, if_neg (by simp)]

theorem head?_ne_slash_of_noSlash (b : PyStr) (hb1 : b ≠ []) (hb2 : '/' ∉ b) :
    ¬ (b.head? = some '/') := by
  cases b with
  | nil => exact absurd rfl hb1
  | cons x xs =>
    intro hh
    rw [List.head?_cons] at hh
    have hx : x = '/' := by injection hh
    subst hx
    exact hb2 (List.mem_cons_self _ xs)

theorem getLast?_ne_slash_of_noSlash (b : PyStr) (hb1 : b ≠ []) (hb2 : '/' ∉ b) :
    ∃ c, b.getLast? = some c ∧ c ≠ '/' := by
  cases hgl : b.getLast? with
  | none =>
    have hs := List.getLast?_isSome.mpr hb1
    rw [hgl] at hs
    simp at hs
  | some c =>
    refine ⟨c, rfl, ?_⟩
    intro hh
    subst hh
    obtain ⟨hne2, heq⟩ := List.mem_getLast?_eq_getLast (show ('/' : Char) ∈ b.getLast? from hgl)
    exact hb2 (heq ▸ List.getLast_mem hne2)

theorem rstripSlash_concat_slash (d : PyStr) (hdne : d ≠ []) (hsl : ¬ (d.getLast? = some '/')) :
    rstripSlash (d ++ ['/']) = d := by
  unfold rstripSlash
  have h1 : (d ++ ['/']).reverse = '/' :: d.reverse := by
    rw [List.reverse_append]
    rfl
  rw [h1, List.dropWhile_cons, if_pos (by simp)]
  obtain ⟨c2, r2, hrev⟩ : ∃ c2 r2, d.reverse = c2 :: r2 := by
    cases hd2 : d.reverse with
    | nil => exact absurd (by simpa using hd2) hdne
    | cons c2 r2 => exact ⟨c2, r2, rfl⟩
  have hc2 : ¬ (c2 = '/') := by
    intro hh
    apply hsl
    have hh2 : d.reverse.head? = some c2 := by rw [hrev]; rfl
    rw [List.head?_reverse] at hh2
    rw [hh2, hh]
  rw [hrev, List.dropWhile_cons, if_neg (by simp [hc2]), ← hrev, List.reverse_reverse]

theorem dirname_joinpath (d f : PyStr) (hd : goodDir d) (hf1 : f ≠ []) (hf2 : '/' ∉ f) :
    dirname (joinpath d f) = d := by
  obtain ⟨hdne, hdlast⟩ := hd
  have hfh : ¬ (f.head? = some '/') := head?_ne_slash_of_noSlash f hf1 hf2
  by_cases hsl : d.getLast? = some '/'
  · have hall := hdlast hsl
    have hjoin : joinpath d f = d ++ f := by
      unfold joinpath
      rw [if_neg hfh, if_pos (Or.inr hsl)]
    rw [hjoin]
    unfold dirname
    dsimp only
    rw [List.reverse_append, reverse_noSlash_dropWhile f hf2]
    obtain ⟨c, rest, hrev⟩ : ∃ c rest, d.reverse = c :: rest := by
      cases hd2 : d.reverse with
      | nil => exact absurd (by simpa using hd2) hdne
      | cons c rest => exact ⟨c, rest, rfl⟩
    have hc : c = '/' := by
      have hh2 : d.reverse.head? = some c := by rw [hrev]; rfl
      rw [List.head?_reverse, hsl] at hh2
      injection hh2 with hh3
      exact hh3.symm
    subst hc
    rw [hrev, dropWhile_ne_slash_head, ← hrev, List.reverse_reverse]
    rw [if_neg ?_]
    intro hcond
    exact hcond.2 hall
  · have hjoin : joinpath d f = d ++ '/' :: f := by
      unfold joinpath
      rw [if_neg hfh, if_neg ?_]
      intro hor
      rcases hor with h1 | h2
      · exact hdne h1
      · exact hsl h2
    rw [hjoin]
    unfold dirname
    dsimp only
    have hrev2 : (d ++ '/' :: f).reverse = f.reverse ++ '/' :: d.reverse := by
      rw [List.reverse_append, List.reverse_cons, List.append_assoc]
      rfl
    rw [hrev2, reverse_noSlash_dropWhile f hf2, dropWhile_ne_slash_head,
      List.reverse_cons, List.reverse_reverse]
    obtain ⟨c, hmem, hcne⟩ : ∃ c, c ∈ d ∧ c ≠ '/' := by
      cases hgl : d.getLast? with
      | none =>
        have hs := List.getLast?_isSome.mpr hdne
        rw [hgl] at hs
        simp at hs
      | some c =>
        refine ⟨c, ?_, ?_⟩
        · obtain ⟨hne2, heq⟩ := List.mem_getLast?_eq_getLast (show c ∈ d.getLast? from hgl)
          exact heq ▸ List.getLast_mem hne2
        · intro hh
          subst hh
          exact hsl hgl
    rw [if_pos ?_]
    · exact rstripSlash_concat_slash d hdne hsl
    · constructor
      · simp
      · intro hall
        rw [List.all_eq_true] at hall
        have := hall c (List.mem_append_left _ hmem)
        simp [hcne] at this

theorem goodDir_joinpath (d b : PyStr) (hd : goodDir d) (hb1 : b ≠ []) (hb2 : '/' ∉ b) :
    goodDir (joinpath d b) := by
  obtain ⟨hdne, -⟩ := hd
  have hbh : ¬ (b.head? = some '/') := head?_ne_slash_of_noSlash b hb1 hb2
  obtain ⟨c, hgl, hcne⟩ := getLast?_ne_slash_of_noSlash b hb1 hb2
  unfold joinpath
  rw [if_neg hbh]
  split
  · refine ⟨by simp [hb1], ?_⟩
    intro hlast
    rw [List.getLast?_append_of_ne_nil _ hb1, hgl] at hlast
    injection hlast with hh
    exact absurd hh hcne
  · refine ⟨by simp, ?_⟩
    intro hlast
    rw [List.getLast?_append_of_ne_nil _ (by simp : ('/' :: b) ≠ [])] at hlast
    have hbl : ('/' :: b).getLast? = some c := by
      cases b with
      | nil => exact absurd rfl hb1
      | cons y ys => rw [List.getLast?_cons_cons]; exact hgl
    rw [hbl] at hlast
    injection hlast with hh
    exact absurd hh hcne

theorem basename_noSlash (p : PyStr) : '/' ∉ basename p := by
  unfold basename
  intro h
  have h2 := List.mem_reverse.mp h
  have h3 := List.mem_takeWhile_imp h2
  simp at h3

theorem goodDir_singleton_dot : goodDir ['.'] := by
  constructor
  · simp
  · intro h
    exact absurd h (by decide)

theorem goodDir_render (k : Nat) (cs : List PyStr)
    (hN1 : ∀ c ∈ cs, c ≠ [] ∧ c ≠ ['.'] ∧ '/' ∉ c)
    (ho : List.replicate k '/' ++ joinSlash cs ≠ []) :
    goodDir (List.replicate k '/' ++ joinSlash cs) := by
  refine ⟨ho, ?_⟩
  intro hlast
  rcases List.eq_nil_or_concat cs with hcs | ⟨cs0, clast, hcs⟩
  · subst hcs
    rw [show joinSlash ([] : List PyStr) = [] from rfl, List.append_nil]
    rw [List.all_eq_true]
    intro x hx
    rw [List.eq_of_mem_replicate hx]
    simp
  · rw [List.concat_eq_append] at hcs
    subst hcs
    obtain ⟨hlne, -, hlns⟩ := hN1 clast (List.mem_append_right _ (List.mem_singleton_self _))
    have hjl : (joinSlash (cs0 ++ [clast])).getLast? = clast.getLast? :=
      joinSlash_concat_getLast? cs0 clast hlne
    have hjne : joinSlash (cs0 ++ [clast]) ≠ [] := by
      intro hz
      rw [hz] at hjl
      have hs := List.getLast?_isSome.mpr hlne
      rw [← hjl] at hs
      simp at hs
    have hout : (List.replicate k '/' ++ joinSlash (cs0 ++ [clast])).getLast?
        = clast.getLast? := by
      rw [List.getLast?_append_of_ne_nil _ hjne, hjl]
    rw [hout] at hlast
    obtain ⟨hne2, heq⟩ := List.mem_getLast?_eq_getLast
      (show ('/' : Char) ∈ clast.getLast? from hlast)
    exact absurd (heq ▸ List.getLast_mem hne2) hlns

theorem goodDir_normpath (p : PyStr) : goodDir (normpath p) := by
  by_cases hp : p = []
  · subst hp
    have h : normpath ([] : PyStr) = ['.'] := by decide
    rw [h]
    exact goodDir_singleton_dot
  · obtain ⟨hN1, -, -⟩ := foldl_normStep_inv (initialSlashes p != 0) (splitSlash p) []
      (mem_splitSlash_noSlash p) (by simp) (by simp)
      (by intro _; exact ⟨0, [], by simp, by simp⟩)
    by_cases ho : List.replicate (initialSlashes p) '/'
        ++ joinSlash (normComps (initialSlashes p != 0) (splitSlash p)) = []
    · have hrw : normpath p = ['.'] := by
        rw [normpath, if_neg hp]
        dsimp only
        rw [if_pos ho]
      rw [hrw]
      exact goodDir_singleton_dot
    · have hrw : normpath p = List.replicate (initialSlashes p) '/'
          ++ joinSlash (normComps (initialSlashes p != 0) (splitSlash p)) := by
        rw [normpath, if_neg hp]
        dsimp only
        rw [if_neg ho]
      rw [hrw]
      exact goodDir_render (initialSlashes p) _ hN1 ho

theorem normpath_destDirOf (source root_dest baseDir : PyStr) :
    normpath (destDirOf source root_dest baseDir) = destDirOf source root_dest baseDir :=
  normpath_idem _

theorem goodDir_destDirOf (source root_dest baseDir : PyStr) :
    goodDir (destDirOf source root_dest baseDir) :=
  goodDir_normpath _

/-! ### The implied-directory invariant of the planner -/

theorem crpStep_inl_rdirs_mono (r : Remote) (source root_dest : PyStr) (rex : Bool)
    (st : PlanSt) (entry : PyStr × List PyStr × List PyStr) (st1 : PlanSt) (evs : List Ev)
    (h : crpStep r source root_dest rex st entry = .inl (st1, evs)) :
    st.rdirs <+: st1.rdirs := by
  simp only [crpStep] at h
  split at h
  · split at h
    · simp only [Sum.inl.injEq, Prod.mk.injEq] at h
      obtain ⟨rfl, -⟩ := h
      exact List.prefix_append _ _
    · split at h
      · simp only [Sum.inl.injEq, Prod.mk.injEq] at h
        obtain ⟨rfl, -⟩ := h
        exact List.prefix_append _ _
      · split at h
        · cases h
        · simp only [Sum.inl.injEq, Prod.mk.injEq] at h
          obtain ⟨rfl, -⟩ := h
          exact List.prefix_refl _
  · simp only [Sum.inl.injEq, Prod.mk.injEq] at h
    obtain ⟨rfl, -⟩ := h
    exact List.prefix_append _ _

theorem crpStep_inl_inv (r : Remote) (source root_dest : PyStr) (rex : Bool)
    (st : PlanSt) (entry : PyStr × List PyStr × List PyStr) (st1 : PlanSt) (evs : List Ev)
    (hwf : ∀ f ∈ entry.2.2, f ≠ [] ∧ '/' ∉ f)
    (h : crpStep r source root_dest rex st entry = .inl (st1, evs)) :
    ∀ m ∈ st1.files, m ∈ st.files
      ∨ dirname m.2 ∈ st1.rdirs ∨ sftpIsdir r (dirname m.2) = true := by
  have hfiles := crpStep_inl_files r source root_dest rex st entry st1 evs h
  intro m hm
  rw [hfiles] at hm
  rcases List.mem_append.mp hm with hm1 | hm2
  · exact Or.inl hm1
  · right
    obtain ⟨f, hf, hfm⟩ := List.mem_map.mp hm2
    obtain ⟨hf1, hf2⟩ := hwf f hf
    have hdir : dirname m.2 = destDirOf source root_dest entry.1 := by
      rw [← hfm]
      exact dirname_joinpath _ f (goodDir_destDirOf source root_dest entry.1) hf1 hf2
    rw [hdir]
    simp only [crpStep] at h
    split at h
    · split at h
      · simp only [Sum.inl.injEq, Prod.mk.injEq] at h
        obtain ⟨rfl, -⟩ := h
        exact Or.inl (List.mem_append_right _ (List.mem_singleton_self _))
      · split at h
        · simp only [Sum.inl.injEq, Prod.mk.injEq] at h
          obtain ⟨rfl, -⟩ := h
          exact Or.inl (List.mem_append_right _ (List.mem_singleton_self _))
        · split at h
          · cases h
          next hnd =>
            right
            rw [← sisdir_fst_eq]
            revert hnd
            cases (sisdir r (destDirOf source root_dest entry.1)).1 <;> simp
    · simp only [Sum.inl.injEq, Prod.mk.injEq] at h
      obtain ⟨rfl, -⟩ := h
      left
      rw [show st.rdirs ++ [normpath (destDirOf source root_dest entry.1)]
          = st.rdirs ++ [destDirOf source root_dest entry.1] from by
        rw [normpath_destDirOf]]
      exact List.mem_append_right _ (List.mem_singleton_self _)

theorem crpWalk_inv (r : Remote) (source root_dest : PyStr) (rex : Bool) :
    ∀ (ws : List (PyStr × List PyStr × List PyStr)) (st st2 : PlanSt) (evs : List Ev),
      (∀ e ∈ ws, ∀ f ∈ e.2.2, f ≠ [] ∧ '/' ∉ f) →
      crpWalk r source root_dest rex st ws = .ok st2 evs →
      (st.rdirs <+: st2.rdirs)
      ∧ ∀ m ∈ st2.files, m ∈ st.files
          ∨ dirname m.2 ∈ st2.rdirs ∨ sftpIsdir r (dirname m.2) = true := by
  intro ws
  induction ws with
  | nil =>
    intro st st2 evs _ h
    rw [crpWalk] at h
    cases h
    exact ⟨List.prefix_refl _, fun m hm => Or.inl hm⟩
  | cons entry rest ih =>
    intro st st2 evs hwf h
    rw [crpWalk] at h
    cases hstep : crpStep r source root_dest rex st entry with
    | inr z =>
      obtain ⟨a1, b1, evs1⟩ := z
      rw [hstep] at h
      cases h
    | inl z =>
      obtain ⟨st1, evs1⟩ := z
      rw [hstep] at h
      dsimp only at h
      cases hrec : crpWalk r source root_dest rex st1 rest with
      | typeMismatch a2 b2 evs2 => rw [hrec] at h; cases h
      | ok st3 evs2 =>
        rw [hrec] at h
        dsimp only at h
        simp only [WalkRes.ok.injEq] at h
        obtain ⟨h3, -⟩ := h
        rw [← h3]
        obtain ⟨hmono2, hinv2⟩ := ih st1 st3 evs2
          (fun e he => hwf e (List.mem_cons_of_mem entry he)) hrec
        have hmono1 := crpStep_inl_rdirs_mono r source root_dest rex st entry st1 evs1 hstep
        have hinv1 := crpStep_inl_inv r source root_dest rex st entry st1 evs1
          (hwf entry (List.mem_cons_self entry rest)) hstep
        refine ⟨hmono1.trans hmono2, ?_⟩
        intro m hm
        rcases hinv2 m hm with hm1 | hm2 | hm3
        · rcases hinv1 m hm1 with hn1 | hn2 | hn3
          · exact Or.inl hn1
          · exact Or.inr (Or.inl (hmono2.subset hn2))
          · exact Or.inr (Or.inr hn3)
        · exact Or.inr (Or.inl hm2)
        · exact Or.inr (Or.inr hm3)

theorem crp_inv (r : Remote) (l : LocalFS) (source root_dest : PyStr)
    (rdirs0 : List PyStr) (files0 : List (PyStr × PyStr)) (rdirs : List PyStr)
    (files : List (PyStr × PyStr)) (evs : List Ev)
    (hwf : ∀ e ∈ l.walk source, ∀ f ∈ e.2.2, f ≠ [] ∧ '/' ∉ f)
    (hfile : l.isfile source = true → goodDir root_dest ∧ basename source ≠ []
      ∧ (root_dest ∈ rdirs0 ∨ sftpIsdir r root_dest = true))
    (h : constructRemotePaths r l source root_dest rdirs0 files0 = .ok rdirs files evs) :
    (rdirs0 <+: rdirs)
    ∧ ∀ m ∈ files, m ∈ files0
        ∨ dirname m.2 ∈ rdirs ∨ sftpIsdir r (dirname m.2) = true := by
  unfold constructRemotePaths at h
  split at h
  next hisf =>
    simp only [PlanOut.ok.injEq] at h
    obtain ⟨rfl, rfl, -⟩ := h
    obtain ⟨hg, hbne, hroot⟩ := hfile hisf
    refine ⟨List.prefix_refl _, ?_⟩
    intro m hm
    rcases List.mem_append.mp hm with hm1 | hm2
    · exact Or.inl hm1
    · rw [List.mem_singleton] at hm2
      subst hm2
      right
      rw [show ((source, joinpath root_dest (basename source)) : PyStr × PyStr).2
          = joinpath root_dest (basename source) from rfl,
        dirname_joinpath root_dest (basename source) hg hbne (basename_noSlash source)]
      exact hroot
  · dsimp only at h
    cases hwk : crpWalk r source root_dest (sisdir r root_dest).1
        { parentPath := root_dest, parentDestExists := (sisdir r root_dest).1,
          rdirs := rdirs0, files := files0 } (l.walk source) with
    | typeMismatch a b evs1 => rw [hwk] at h; cases h
    | ok st2 evs2 =>
      rw [hwk] at h
      dsimp only at h
      simp only [PlanOut.ok.injEq] at h
      obtain ⟨rfl, rfl, -⟩ := h
      exact crpWalk_inv r source root_dest (sisdir r root_dest).1 (l.walk source) _ st2 evs2
        hwf hwk

theorem patLoop_inv (r : Remote) (l : LocalFS) (root_dest : PyStr)
    (hwfw : ∀ s, ∀ e ∈ l.walk s, ∀ f ∈ e.2.2, f ≠ [] ∧ '/' ∉ f)
    (hfd : ∀ p, l.isfile p = true → l.isdir p = false)
    (hgood : goodDir root_dest) :
    ∀ (ms : List PyStr) (rdirs : List PyStr) (files : List (PyStr × PyStr))
      (rdirs2 : List PyStr) (files2 : List (PyStr × PyStr)) (evs : List Ev),
      (∀ m ∈ ms, basename m ≠ []) →
      (root_dest ∈ rdirs ∨ sftpIsdir r root_dest = true) →
      patLoop r l root_dest ms rdirs files = .ok rdirs2 files2 evs →
      (rdirs <+: rdirs2)
      ∧ ∀ m ∈ files2, m ∈ files
          ∨ dirname m.2 ∈ rdirs2 ∨ sftpIsdir r (dirname m.2) = true := by
  intro ms
  induction ms with
  | nil =>
    intro rdirs files rdirs2 files2 evs _ _ h
    rw [patLoop] at h
    cases h
    exact ⟨List.prefix_refl _, fun m hm => Or.inl hm⟩
  | cons lfile rest ih =>
    intro rdirs files rdirs2 files2 evs hbn hroot h
    rw [patLoop] at h
    cases hc : constructRemotePaths r l lfile
        (if l.isdir lfile = true then joinpath root_dest (basename lfile) else root_dest)
        rdirs files with
    | err e1 evs1 => rw [hc] at h; cases h
    | ok rdirs1 files1 evs1 =>
      rw [hc] at h
      dsimp only at h
      cases hrec : patLoop r l root_dest rest rdirs1 files1 with
      | err e2 evs2 => rw [hrec] at h; cases h
      | ok rdirs3 files3 evs2 =>
        rw [hrec] at h
        dsimp only at h
        simp only [PlanOut.ok.injEq] at h
        obtain ⟨h3, h4, -⟩ := h
        rw [← h3, ← h4]
        have hfileHyp : l.isfile lfile = true →
            goodDir (if l.isdir lfile = true then joinpath root_dest (basename lfile)
              else root_dest)
            ∧ basename lfile ≠ []
            ∧ ((if l.isdir lfile = true then joinpath root_dest (basename lfile)
                else root_dest) ∈ rdirs
              ∨ sftpIsdir r (if l.isdir lfile = true then
                  joinpath root_dest (basename lfile) else root_dest) = true) := by
          intro hisf
          rw [hfd lfile hisf]
          simp only [Bool.false_eq_true, if_false]
          exact ⟨hgood, hbn lfile (List.mem_cons_self lfile rest), hroot⟩
        obtain ⟨hmono1, hinv1⟩ := crp_inv r l lfile _ rdirs files rdirs1 files1 evs1
          (hwfw lfile) hfileHyp hc
        obtain ⟨hmono2, hinv2⟩ := ih rdirs1 files1 rdirs3 files3 evs2
          (fun m hm => hbn m (List.mem_cons_of_mem lfile hm))
          (by
            rcases hroot with h1 | h2
            · exact Or.inl (hmono1.subset h1)
            · exact Or.inr h2) hrec
        refine ⟨hmono1.trans hmono2, ?_⟩
        intro m hm
        rcases hinv2 m hm with hm1 | hm2 | hm3
        · rcases hinv1 m hm1 with hn1 | hn2 | hn3
          · exact Or.inl hn1
          · exact Or.inr (Or.inl (hmono2.subset hn2))
          · exact Or.inr (Or.inr hn3)
        · exact Or.inr (Or.inl hm2)
        · exact Or.inr (Or.inr hm3)

theorem planOf_inv (r : Remote) (l : LocalFS) (s0 d0 : PyStr) (rdirs : List PyStr)
    (files : List (PyStr × PyStr)) (evs : List Ev)
    (hwf : wfLocal l)
    (hnf : l.isfile (normpath s0) = false)
    (h : planOf r l s0 d0 = .ok rdirs files evs) :
    ∀ lf rf, (lf, rf) ∈ files → dirname rf ∈ rdirs ∨ sftpIsdir r (dirname rf) = true := by
  obtain ⟨hwfw, hwfg, hwff⟩ := hwf
  unfold planOf at h
  dsimp only at h
  rw [hnf] at h
  simp only [Bool.false_eq_true, if_false] at h
  split at h
  · -- directory source
    obtain ⟨evs1, hc⟩ := gpsd_ok_from_crp _ _ _ _ _ _ _ h
    obtain ⟨-, hinv⟩ := crp_inv r l (normpath s0) _ [] [] rdirs files evs1
      (fun e he => hwfw (normpath s0) e he)
      (by intro hisf; rw [hnf] at hisf; cases hisf) hc
    intro lf rf hm
    rcases hinv (lf, rf) hm with hm1 | hm2 | hm3
    · cases hm1
    · exact Or.inl hm2
    · exact Or.inr hm3
  · -- pattern source
    unfold getPathsSourcePattern at h
    dsimp only at h
    split at h
    · cases h
    next hglob =>
      cases hp : patLoop r l (normpath d0) (l.glob (normpath s0))
          (if (sisdir r (normpath d0)).1 = false then [normpath d0] else []) [] with
      | err e1 evs1 => rw [hp] at h; cases h
      | ok rdirs1 files1 evs1 =>
        rw [hp] at h
        dsimp only at h
        simp only [PlanOut.ok.injEq] at h
        obtain ⟨rfl, rfl, -⟩ := h
        have hroot : normpath d0
            ∈ (if (sisdir r (normpath d0)).1 = false then [normpath d0] else [])
            ∨ sftpIsdir r (normpath d0) = true := by
          by_cases hd : (sisdir r (normpath d0)).1 = false
          · rw [if_pos hd]
            exact Or.inl (List.mem_singleton_self _)
          · right
            rw [← sisdir_fst_eq]
            revert hd
            cases (sisdir r (normpath d0)).1 <;> simp
        obtain ⟨-, hinv⟩ := patLoop_inv r l (normpath d0)
          (fun s e he => hwfw s e he) hwff (goodDir_normpath d0)
          (l.glob (normpath s0)) _ [] rdirs1 files1 evs1
          (fun m hm => hwfg (normpath s0) m hm) hroot hp
        intro lf rf hm
        rcases hinv (lf, rf) hm with hm1 | hm2 | hm3
        · cases hm1
        · exact Or.inl hm2
        · exact Or.inr hm3

theorem mkdirPhase_spec (r : Remote) : ∀ (rdirs : List PyStr),
    ∃ k, k ≤ rdirs.length ∧ (mkdirPhase r rdirs).2 = (rdirs.take k).map Ev.mkdir
      ∧ ((mkdirPhase r rdirs).1 = none → k = rdirs.length) := by
  intro rdirs
  induction rdirs with
  | nil => exact ⟨0, by simp, rfl, fun _ => rfl⟩
  | cons d rest ih =>
    obtain ⟨k, hk, hevs, hnone⟩ := ih
    by_cases hok : r.mkdirOk d = true
    · refine ⟨k + 1, by simp; omega, ?_, ?_⟩
      · rw [mkdirPhase, if_pos hok]
        dsimp only
        rw [hevs, List.take_succ_cons, List.map_cons]
      · rw [mkdirPhase, if_pos hok]
        dsimp only
        intro hn
        rw [hnone hn, List.length_cons]
    · refine ⟨1, by simp, ?_, ?_⟩
      · rw [mkdirPhase, if_neg hok]
        rfl
      · rw [mkdirPhase, if_neg hok]
        intro hn
        cases hn

theorem putPhase_spec (r : Remote) : ∀ (files : List (PyStr × PyStr)),
    ∃ m, m ≤ files.length
      ∧ (putPhase r files).2 = (files.take m).map (fun q => Ev.put q.1 q.2)
      ∧ ((putPhase r files).1 = none → m = files.length) := by
  intro files
  induction files with
  | nil => exact ⟨0, by simp, rfl, fun _ => rfl⟩
  | cons q rest ih =>
    obtain ⟨lf, rf⟩ := q
    obtain ⟨m, hm, hevs, hnone⟩ := ih
    by_cases hok : r.putOk lf rf = true
    · refine ⟨m + 1, by simp; omega, ?_, ?_⟩
      · rw [putPhase, if_pos hok]
        dsimp only
        rw [hevs, List.take_succ_cons, List.map_cons]
      · rw [putPhase, if_pos hok]
        dsimp only
        intro hn
        rw [hnone hn, List.length_cons]
    · refine ⟨1, by simp, ?_, ?_⟩
      · rw [putPhase, if_neg hok]
        rfl
      · rw [putPhase, if_neg hok]
        intro hn
        cases hn

theorem scp_exec_order (r : Remote) (l : LocalFS) (s0 d0 : PyStr) (rec : Bool)
    (rdirs : List PyStr) (files : List (PyStr × PyStr)) (evs : List Ev)
    (hplan : planOf r l s0 d0 = .ok rdirs files evs) :
    scp r l s0 d0 rec = .err .recursiveFlagRequired []
    ∨ ∃ k m, k ≤ rdirs.length ∧ m ≤ files.length
        ∧ evsOfScp (scp r l s0 d0 rec)
            = Ev.connect :: evs ++ (rdirs.take k).map Ev.mkdir
              ++ (files.take m).map (fun q => Ev.put q.1 q.2)
        ∧ (0 < m → k = rdirs.length) := by
  by_cases hgate : ((l.isdir (normpath s0) || decide ((l.glob (normpath s0)).length > 1))
      && !rec) = true
  · left
    unfold scp
    dsimp only
    rw [hgate]
    simp
  · right
    have hg2 : ((l.isdir (normpath s0) || decide ((l.glob (normpath s0)).length > 1))
        && !rec) = false := by
      revert hgate
      cases ((l.isdir (normpath s0) || decide ((l.glob (normpath s0)).length > 1)) && !rec) <;>
        simp
    rw [scp_gate_passed r l s0 d0 rec hg2]
    unfold scpAfterGate
    rw [hplan]
    dsimp only
    obtain ⟨k, hk, hdevs, hknone⟩ := mkdirPhase_spec r rdirs
    obtain ⟨m, hm, huevs, hmnone⟩ := putPhase_spec r files
    cases hmk : mkdirPhase r rdirs with
    | mk o devs =>
      rw [hmk] at hdevs hknone
      dsimp only at hdevs hknone
      cases o with
      | some d =>
        refine ⟨k, 0, hk, by omega, ?_, by omega⟩
        dsimp only [evsOfScp]
        rw [hdevs]
        simp
      | none =>
        have hkfull := hknone rfl
        cases hput : putPhase r files with
        | mk o2 uevs =>
          rw [hput] at huevs hmnone
          dsimp only at huevs hmnone
          cases o2 with
          | some lr =>
            refine ⟨k, m, hk, hm, ?_, fun _ => hkfull⟩
            dsimp only [evsOfScp]
            rw [hdevs, huevs]
          | none =>
            refine ⟨k, m, hk, hm, ?_, fun _ => hkfull⟩
            dsimp only [evsOfScp]
            rw [hdevs, huevs]

/-- C5 counterexample: for a single-file source whose destination is
not an existing remote directory, the plan maps the file into a parent
directory that was neither probed as a directory nor scheduled for
creation — the claimed invariant fails for the file source kind. -/
theorem c5_file_source_counterexample :
    planOf remoteAbsent (lfsForFile (ps "f")) (ps "f") (ps "/r/x")
      = .ok [] [(ps "f", ps "/r/x")] [.statQ (ps "/r/x")]
    ∧ ¬ (dirname (ps "/r/x") ∈ ([] : List PyStr)
        ∨ sftpIsdir remoteAbsent (dirname (ps "/r/x")) = true) := by
  decide

/-- C5 as amended (restricted to directory and pattern sources): every
file mapping of an error-free plan goes into a directory that the probe
reported as an existing remote directory or that appears in the
creation list; and in the executing scp call the creation-list entries
are issued in list order (a prefix on mkdir failure, all of them
otherwise) strictly before any upload event, uploads following in file
order. -/
theorem c5_implied_dirs_and_order :
    (∀ (r : Remote) (l : LocalFS) (s0 d0 : PyStr) (rdirs : List PyStr)
        (files : List (PyStr × PyStr)) (evs : List Ev),
        wfLocal l → l.isfile (normpath s0) = false →
        planOf r l s0 d0 = .ok rdirs files evs →
        ∀ lf rf, (lf, rf) ∈ files →
          dirname rf ∈ rdirs ∨ sftpIsdir r (dirname rf) = true)
    ∧ (∀ (r : Remote) (l : LocalFS) (s0 d0 : PyStr) (rec : Bool) (rdirs : List PyStr)
        (files : List (PyStr × PyStr)) (evs : List Ev),
        planOf r l s0 d0 = .ok rdirs files evs →
        scp r l s0 d0 rec = .err .recursiveFlagRequired []
        ∨ ∃ k m, k ≤ rdirs.length ∧ m ≤ files.length
            ∧ evsOfScp (scp r l s0 d0 rec)
                = Ev.connect :: evs ++ (rdirs.take k).map Ev.mkdir
                  ++ (files.take m).map (fun q => Ev.put q.1 q.2)
            ∧ (0 < m → k = rdirs.length)) := by
  constructor
  · intro r l s0 d0 rdirs files evs hwf hnf h
    exact planOf_inv r l s0 d0 rdirs files evs hwf hnf h
  · intro r l s0 d0 rec rdirs files evs h
    exact scp_exec_order r l s0 d0 rec rdirs files evs h

theorem wfLocal_lfsForDirC4 : wfLocal (lfsForDir (ps "a") treeC4) := by
  refine ⟨?_, ?_, ?_⟩
  · intro s e he f hf
    dsimp only [lfsForDir] at he
    split at he
    · exact (by decide : ∀ e ∈ walkFrom (ps "a") treeC4, ∀ f ∈ e.2.2,
        f ≠ [] ∧ '/' ∉ f) e he f hf
    · simp at he
  · intro pat f hf
    dsimp only [lfsForDir] at hf
    split at hf
    · exact (by decide : ∀ f ∈ [ps "a"], basename f ≠ []) f hf
    · simp at hf
  · intro p hp
    dsimp only [lfsForDir] at hp
    cases hp

/-- Witness for C5 on the end-to-end directory scenario: the mapping of
`a/x.txt` goes into `/remote/d`, which is in the creation list. -/
theorem c5_implied_dirs_and_order_w :
    dirname (ps "/remote/d/x.txt")
      ∈ rdirsOfPlan (planOf remoteAbsent (lfsForDir (ps "a") treeC4) (ps "a") (ps "/remote/d"))
    ∨ sftpIsdir remoteAbsent (dirname (ps "/remote/d/x.txt")) = true :=
  c5_implied_dirs_and_order.1 remoteAbsent (lfsForDir (ps "a") treeC4) (ps "a")
    (ps "/remote/d")
    (rdirsOfPlan (planOf remoteAbsent (lfsForDir (ps "a") treeC4) (ps "a") (ps "/remote/d")))
    (filesOfPlan (planOf remoteAbsent (lfsForDir (ps "a") treeC4) (ps "a") (ps "/remote/d")))
    (evsOfPlan (planOf remoteAbsent (lfsForDir (ps "a") treeC4) (ps "a") (ps "/remote/d")))
    wfLocal_lfsForDirC4 rfl (by decide) (ps "a/x.txt") (ps "/remote/d/x.txt") (by decide)
